import Mathlib

/-!
Verification of the `Frameworks_Assignment` data-analysis core
(`data_analysis.py` and `estimated_analysis.py`) against its specification.

The pandas DataFrames are modelled shallowly: a table is a list of column
names together with a list of rows, each row a list of cells.  A cell is a
Python scalar as it occurs in these tables: a string, a number (modelled as
a rational; the claims only exercise integral values), a parsed timestamp
(only its year is ever observed), Python `None`, a float `nan`, or pandas
`NA`.  Errors raised by the Python code are modelled with `Except`.
-/

namespace FA

/-- Scalar values stored in a table cell. `pynone` is Python `None`,
`nan` is the float NaN missing marker, `na` is pandas `NA`. -/
inductive Cell where
  | str (s : String)
  | num (q : ℚ)
  | date (year : Int)
  | pynone
  | nan
  | na
deriving DecidableEq, Repr

/-- Missing-value test, as pandas `isna`/`notna`: `None`, `NaN` and `NA`
are missing; strings, numbers and timestamps are not. -/
def Cell.isna : Cell → Bool
  | .pynone => true
  | .nan => true
  | .na => true
  | _ => false

/-- Whether the cell is a Python string. -/
def Cell.isStr : Cell → Bool
  | .str _ => true
  | _ => false

/-- Python `str()` of a cell, as `astype(str)` applies it elementwise.
`str(None) = "None"`, `str(nan) = "nan"`, `str(NA) = "<NA>"`.  A float
prints with its decimal point in Python; the claims only exercise
integral numbers, for which pandas integer columns print without one. -/
def Cell.toStr : Cell → String
  | .str s => s
  | .num q => if q.den = 1 then toString q.num else toString q
  | .date y => toString y ++ "-01-01"
  | .pynone => "None"
  | .nan => "nan"
  | .na => "<NA>"

/-- Errors raised by the Python code.  `invalidInput` stands for the
spec's `InvalidInputError` taxon, raised in the source as a `ValueError`;
`keyError` is a Python `KeyError` from indexing a missing column;
`typeError` is the `TypeError` pandas raises on an unsafe `astype` cast. -/
inductive DFError where
  | keyError (col : String)
  | invalidInput (msg : String)
  | typeError (msg : String)
deriving DecidableEq, Repr

deriving instance DecidableEq for Except

/-! ### Character-run helpers

Python's `re.findall(r"[a-zA-Z]{2,}", t)` returns the maximal runs of
ASCII letters of length at least two, and `s.split()` counts the maximal
runs of non-whitespace.  Both are modelled by `runsBy`, a structural
single pass over the character list that groups consecutive characters
satisfying `p` into runs and discards the rest. -/

/-- Maximal runs of consecutive characters satisfying `p`. -/
def runsBy (p : Char → Bool) : List Char → List (List Char)
  | [] => []
  | c :: rest =>
    let r := runsBy p rest
    if p c then
      match rest with
      | [] => [[c]]
      | d :: _ =>
        if p d then
          match r with
          | run :: rs => (c :: run) :: rs
          | [] => [[c]]
        else [c] :: r
    else r

/-- Python `len(s.split())`: the number of whitespace-delimited tokens. -/
def pySplitCount (s : String) : Nat :=
  (runsBy (fun c => !c.isWhitespace) s.data).length

/-- Tokens matched by the regex `[a-zA-Z]{2,}`: maximal ASCII-letter runs
of length at least two. -/
def alphaTokens (s : String) : List String :=
  ((runsBy (fun c => c.isAlpha) s.data).filter (fun r => 2 ≤ r.length)).map
    (fun r => String.mk r)

/-! ### Structural string primitives

The corresponding core `String` functions are implemented with iterators
and well-founded recursion, which the kernel cannot unfold; these
char-list versions compute by `decide`/`rfl` and agree with Python's
`strip`, `lower` and `split` on the ASCII data at issue. -/

/-- Python `s.strip()`: drop leading and trailing whitespace. -/
def trimChars (l : List Char) : List Char :=
  ((l.dropWhile Char.isWhitespace).reverse.dropWhile Char.isWhitespace).reverse

/-- Python `s.strip()` on a `String`. -/
def pyStrip (s : String) : String := String.mk (trimChars s.data)

/-- Python `s.lower()` (ASCII; the titles at issue are ASCII). -/
def pyLower (s : String) : String := String.mk (s.data.map Char.toLower)

/-- Split a character list at every occurrence of `sep`; like
`String.splitOn`, the empty list yields one empty piece. -/
def splitOnChar (sep : Char) : List Char → List (List Char)
  | [] => [[]]
  | c :: rest =>
    match splitOnChar sep rest with
    | h :: t => if c = sep then [] :: h :: t else (c :: h) :: t
    | [] => if c = sep then [[], []] else [[c]]

/-- Numeric value of a digit list (digits validated separately). -/
def digitsToNat (l : List Char) : Nat :=
  l.foldl (fun n c => n * 10 + (c.toNat - 48)) 0

/-! ### Kernel-computable rational arithmetic

The library's `Rat.add`, `Rat.mul` and `Rat.inv` are `@[irreducible]`,
so closed instances of the cleaning functions could not be checked by
`decide` through them.  `ratAdd` and `ratHalf` compute the same values
through `Rat.divInt`, which the kernel evaluates; the lemmas following
them show the agreement with `+` and `/ 2`. -/

/-- Rational addition through `Rat.divInt`. -/
def ratAdd (a b : ℚ) : ℚ :=
  Rat.divInt (a.num * (b.den : Int) + b.num * (a.den : Int)) ((a.den : Int) * (b.den : Int))

/-- Rational halving through `Rat.divInt`. -/
def ratHalf (q : ℚ) : ℚ := Rat.divInt q.num (2 * (q.den : Int))

/-! ### Numeric and date parsing -/

/-- Parse a decimal digit run, the empty run standing for zero digits
(used for the two sides of a decimal point). -/
def digitsVal? (l : List Char) : Option Nat :=
  if l.isEmpty then some 0
  else if l.all Char.isDigit then some (digitsToNat l) else none

/-- Model of `pd.to_numeric` string parsing restricted to plain decimal
notation: optional sign, digits, optional fractional part.  Scientific
notation and other exotic float syntax are outside the model; the
repository's data uses plain decimals. -/
def parseNum (s : String) : Option ℚ :=
  let (sgn, body) : Int × List Char :=
    match trimChars s.data with
    | '-' :: rest => (-1, rest)
    | '+' :: rest => (1, rest)
    | l => (1, l)
  match splitOnChar '.' body with
  | [a] =>
    if a.isEmpty then none
    else (digitsVal? a).map (fun n => ((sgn * (n : Int) : Int) : ℚ))
  | [a, b] =>
    if a.isEmpty ∧ b.isEmpty then none
    else
      match digitsVal? a, digitsVal? b with
      | some n, some f =>
          some (Rat.divInt (sgn * ((n : Int) * (10 : Int) ^ b.length + (f : Int)))
            ((10 : Int) ^ b.length))
      | _, _ => none
  | _ => none

/-- Model of `pd.to_datetime(..., errors="coerce")` string parsing,
keeping only the year (nothing else is observed by the code).  Strings
are parsed as `YYYY`, `YYYY-MM` or `YYYY-MM-DD`; anything unparseable
becomes `NaT` (folded into `nan`, which is equally missing). -/
def parseDate (s : String) : Option Int :=
  match splitOnChar '-' (trimChars s.data) with
  | [y] =>
    if y.length = 4 ∧ y.all Char.isDigit then some (Int.ofNat (digitsToNat y)) else none
  | [y, m] =>
    if y.length = 4 ∧ y.all Char.isDigit ∧ m.all Char.isDigit ∧ ¬m.isEmpty
    then some (Int.ofNat (digitsToNat y)) else none
  | [y, m, d] =>
    if y.length = 4 ∧ y.all Char.isDigit ∧ m.all Char.isDigit ∧ ¬m.isEmpty
       ∧ d.all Char.isDigit ∧ ¬d.isEmpty
    then some (Int.ofNat (digitsToNat y)) else none
  | _ => none

/-- Elementwise `pd.to_datetime(..., errors="coerce")`. -/
def pdToDatetime (c : Cell) : Cell :=
  match c with
  | .date y => .date y
  | .str s => match parseDate s with
    | some y => .date y
    | none => .nan
  | .num _ => .date 1970
  | _ => .nan

/-- Elementwise `.dt.year`: the year of a timestamp, missing for `NaT`. -/
def dtYear (c : Cell) : Cell :=
  match c with
  | .date y => .num (y : ℚ)
  | _ => .nan

/-- Elementwise `pd.to_numeric(..., errors="coerce")`: numbers pass
through, strings are parsed, everything unparseable or missing becomes
`NaN`. -/
def toNumeric (c : Cell) : Cell :=
  match c with
  | .num q => .num q
  | .str s => match parseNum s with
    | some q => .num q
    | none => .nan
  | _ => .nan

/-! ### Tables

A pandas DataFrame is a list of column names and a list of rows.  A table
is well formed when the column names are distinct and every row has one
cell per column; `read_csv` only produces such tables (it mangles
duplicate headers), so theorems about arbitrary input tables assume
`Table.WF`. -/

/-- Shallow model of a DataFrame. -/
structure Table where
  cols : List String
  rows : List (List Cell)
deriving DecidableEq, Repr

/-- Index of the first column with the given name. -/
def idxOf? : List String → String → Option Nat
  | [], _ => none
  | a :: l, c => if a = c then some 0 else (idxOf? l c).map (· + 1)

/-- Well-formed table: distinct column names, rectangular rows. -/
def Table.WF (t : Table) : Prop :=
  t.cols.Nodup ∧ ∀ r ∈ t.rows, r.length = t.cols.length

instance (t : Table) : Decidable t.WF := by
  unfold Table.WF; infer_instance

/-- The named column as a list of cells (one per row); `[]` if absent. -/
def Table.getCol (t : Table) (c : String) : List Cell :=
  match idxOf? t.cols c with
  | some i => t.rows.map (fun r => r.getD i Cell.nan)
  | none => []

/-- Replace the cells of an existing column by applying `f` elementwise,
as `df[c] = df[c].map(f)`; the identity when the column is absent. -/
def Table.mapCol (t : Table) (c : String) (f : Cell → Cell) : Table :=
  match idxOf? t.cols c with
  | some i => ⟨t.cols, t.rows.map (fun r => r.set i (f (r.getD i Cell.nan)))⟩
  | none => t

/-- Assignment `df[dst] = df[src].map(f)`: derive a column from another,
replacing `dst` in place when it already exists and appending it
otherwise.  When `src` is absent the source values are read as missing
(the guards in the cleaning code ensure this case is never reached). -/
def Table.deriveCol (t : Table) (dst src : String) (f : Cell → Cell) : Table :=
  let get : List Cell → Cell := fun r =>
    match idxOf? t.cols src with
    | some j => r.getD j Cell.nan
    | none => Cell.nan
  match idxOf? t.cols dst with
  | some i => ⟨t.cols, t.rows.map (fun r => r.set i (f (get r)))⟩
  | none => ⟨t.cols ++ [dst], t.rows.map (fun r => r ++ [f (get r)])⟩

/-- Assignment `df[dst] = v` of a constant scalar. -/
def Table.setColConst (t : Table) (dst : String) (v : Cell) : Table :=
  match idxOf? t.cols dst with
  | some i => ⟨t.cols, t.rows.map (fun r => r.set i v)⟩
  | none => ⟨t.cols ++ [dst], t.rows.map (fun r => r ++ [v])⟩

/-- Boolean-mask row filter `df[pred]`. -/
def Table.filterRows (t : Table) (p : List Cell → Bool) : Table :=
  ⟨t.cols, t.rows.filter p⟩

/-- Column projection `df[cs]` (each requested column must exist). -/
def Table.select (t : Table) (cs : List String) : Table :=
  ⟨cs, t.rows.map (fun r => cs.map (fun c =>
    match idxOf? t.cols c with
    | some i => r.getD i Cell.nan
    | none => Cell.nan))⟩

/-! ### pandas dtype and column-wise helpers -/

/-- Whether the cell is Python `None` or pandas `NA`. -/
def Cell.isNoneLike : Cell → Bool
  | .pynone => true
  | .na => true
  | _ => false

/-- Model of the dtype test behind `select_dtypes(include=["object"])`:
a column holds `object` dtype when it contains a Python string, or when
it is non-empty and holds only `None`/`NA` (pandas keeps such a column
as `object`; a numeric column with `NaN` holes is `float64`, and `None`
mixed into numbers is coerced to `NaN`). -/
def isObjectDtype (cs : List Cell) : Bool :=
  cs.any Cell.isStr || (!cs.isEmpty && cs.all Cell.isNoneLike)

/-- The column at index `i` as a list of cells. -/
def Table.colAt (t : Table) (i : Nat) : List Cell :=
  t.rows.map (fun r => r.getD i Cell.nan)

/-- Lines 38-39 of `estimated_analysis.py`: for every `object`-dtype
column, `df[col] = df[col].astype(str).str.strip()`.  `astype(str)` turns
every cell, missing ones included, into its Python string form, so
`None` becomes the literal string `"None"` and `NaN` becomes `"nan"`. -/
def Table.stripObjects (t : Table) : Table :=
  let obj : List Nat := (List.range t.cols.length).filter
    (fun i => isObjectDtype (t.colAt i))
  ⟨t.cols, t.rows.map (fun r => r.mapIdx (fun i c =>
    if i ∈ obj then Cell.str (pyStrip (Cell.toStr c)) else c))⟩

/-- Structural effectful map over a list in the `Except` monad. -/
def mapME {ε α β : Type} (f : α → Except ε β) : List α → Except ε (List β)
  | [] => .ok []
  | a :: l => do
      let b ← f a
      let l' ← mapME f l
      pure (b :: l')

/-- Replace the cells of an existing column through a fallible
elementwise function (used for the `astype("Int64")` cast, which raises
on non-integral floats); the identity when the column is absent. -/
def Table.mapColE (t : Table) (c : String) (f : Cell → Except DFError Cell) :
    Except DFError Table :=
  match idxOf? t.cols c with
  | some i => do
      let rows ← mapME (fun r => do
        let v ← f (r.getD i Cell.nan)
        pure (r.set i v)) t.rows
      pure ⟨t.cols, rows⟩
  | none => pure t

/-! ### Counting and sorting helpers (Counter, value_counts, sort_values)

`counterOf` tallies occurrences keeping first-encounter key order, as a
Python `Counter` (an insertion-ordered dict) does.  `Counter.most_common`
uses Python's stable `sorted`.  pandas `value_counts` and `sort_values`
default to numpy quicksort, which pins down the multiset and the key
order of the output but not the relative order of tied keys; every
property proved about these sorts below is agnostic to tie order. -/

/-- Add one occurrence of `k` to an association list of counts. -/
def bump {α : Type} [DecidableEq α] (k : α) : List (α × Nat) → List (α × Nat)
  | [] => [(k, 1)]
  | (a, n) :: rest => if a = k then (a, n + 1) :: rest else (a, n) :: bump k rest

/-- Occurrence counts in first-encounter key order. -/
def counterOf {α : Type} [DecidableEq α] (l : List α) : List (α × Nat) :=
  l.foldl (fun acc k => bump k acc) []

/-- Stable sort of `(key, count)` pairs by count descending. -/
def sortByCountDesc {α : Type} (l : List (α × Nat)) : List (α × Nat) :=
  List.insertionSort (fun p q : α × Nat => q.2 ≤ p.2) l

/-- Model of `Series.value_counts()`: one entry per distinct value with
its multiplicity, ordered by count descending. -/
def value_counts (l : List Cell) : List (Cell × Nat) :=
  sortByCountDesc (counterOf l)

/-- Model of `Counter.most_common(n)`. -/
def mostCommon (l : List (String × Nat)) (n : Nat) : List (String × Nat) :=
  (sortByCountDesc l).take n

/-- Constructor rank used to order cells of distinct kinds; pandas would
raise on such a mixed comparison, and no claim exercises one. -/
def Cell.rank : Cell → Nat
  | .num _ => 0
  | .str _ => 1
  | .date _ => 2
  | .pynone => 3
  | .nan => 4
  | .na => 5

/-- Comparison used to order group keys and sort keys: numeric on
numbers, lexicographic on strings, by year on timestamps. -/
def cellLeB (a b : Cell) : Bool :=
  match a, b with
  | .num p, .num q => p ≤ q
  | .str s, .str u => s ≤ u
  | .date y, .date z => y ≤ z
  | _, _ => a.rank ≤ b.rank

/-- Propositional form of `cellLeB`. -/
def cellLe (a b : Cell) : Prop := cellLeB a b = true

instance : DecidableRel cellLe := fun a b => by unfold cellLe; infer_instance

instance : IsTotal Cell cellLe := by
  constructor
  intro a b
  cases a <;> cases b <;> simp [cellLe, cellLeB, Cell.rank] <;>
    exact le_total _ _

instance : IsTrans Cell cellLe := by
  constructor
  intro a b c hab hbc
  cases a <;> cases b <;> cases c <;>
    simp only [cellLe, cellLeB, Cell.rank, decide_eq_true_eq] at * <;>
    first
      | rfl
      | omega
      | exact le_trans hab hbc

/-- First-encounter list of the distinct elements of `l`. -/
def distinctKeys {α : Type} [DecidableEq α] (l : List α) : List α :=
  (counterOf l).map Prod.fst

/-! ### data_analysis.py -/

/-- The fixed stopword set of `data_analysis.py`. -/
def STOPWORDS : List String :=
  ["the", "and", "of", "in", "to", "a", "for", "on", "with", "by", "an",
   "from", "study", "studies", "using", "use", "based"]

/-- Elementwise `fillna("")`. -/
def fillnaEmpty (c : Cell) : Cell := if c.isna then .str "" else c

/-- Elementwise `fillna("").astype(str)` applied to the title column. -/
def coerceTitle (c : Cell) : Cell := .str (Cell.toStr (fillnaEmpty c))

/-- One abstract cell to its word count, line 62 of `data_analysis.py`:
`fillna("").astype(str).apply(lambda s: len(s.split()))`. -/
def awcCell (c : Cell) : Cell :=
  .num ((pySplitCount (Cell.toStr (fillnaEmpty c)) : ℚ))

/-- The mask `df["title"].str.strip() != ""`.  On a non-string cell the
`.str` accessor yields `NaN` and `NaN != ""` is `True`, matching pandas;
after cleaning the title column only holds strings anyway. -/
def keepTitleCell (c : Cell) : Bool :=
  match c with
  | .str s => !(pyStrip s == "")
  | _ => true

/-- The mask `df["abstract_word_count"] > 0` (false on a missing cell,
as pandas comparisons with `NaN` are). -/
def awcPos (c : Cell) : Bool :=
  match c with
  | .num q => decide (0 < q)
  | _ => false

/-- Lines 45-58 of `data_analysis.py`: pick the date column (prefer
`publish_time`, fall back to `publish_date`), parse it with
`pd.to_datetime(..., errors="coerce")` and derive `year` from it; when
neither date column exists, `year` is set to all-`NaT`. -/
def cdStage1 (t : Table) : Table :=
  if "publish_time" ∈ t.cols then
    (t.mapCol "publish_time" pdToDatetime).deriveCol "year" "publish_time" dtYear
  else if "publish_date" ∈ t.cols then
    (t.mapCol "publish_date" pdToDatetime).deriveCol "year" "publish_date" dtYear
  else t.setColConst "year" Cell.nan

/-- Lines 60-64: derive `abstract_word_count` from `abstract`, or set it
to the constant 0 when `abstract` is absent. -/
def cdStage2 (t : Table) : Table :=
  if "abstract" ∈ t.cols then t.deriveCol "abstract_word_count" "abstract" awcCell
  else t.setColConst "abstract_word_count" (Cell.num 0)

/-- Lines 66-68: coerce `title` to strings with `fillna("").astype(str)`
when the column exists. -/
def cdStage3 (t : Table) : Table :=
  if "title" ∈ t.cols then t.mapCol "title" coerceTitle else t

/-- Model of `clean_data` (lines 36-73 of `data_analysis.py`): the three
assignment stages then the row filter of line 71, which raises a
`KeyError` when the table has no `title` column. -/
def clean_data (t : Table) : Except DFError Table :=
  let t3 := cdStage3 (cdStage2 (cdStage1 t))
  match idxOf? t3.cols "title", idxOf? t3.cols "abstract_word_count" with
  | some it, some ia =>
      .ok (t3.filterRows (fun r =>
        keepTitleCell (r.getD it Cell.nan) || awcPos (r.getD ia Cell.nan)))
  | _, _ => .error (.keyError "title")

/-- Python `int(s)` on a string: optional sign and decimal digits. -/
def pyInt? (s : String) : Option Int :=
  match trimChars s.data with
  | '-' :: rest => (digitsVal? rest).bind (fun n => if rest.isEmpty then none else some (-(n : Int)))
  | '+' :: rest => (digitsVal? rest).bind (fun n => if rest.isEmpty then none else some (Int.ofNat n))
  | l => (digitsVal? l).bind (fun n => if l.isEmpty then none else some (Int.ofNat n))

/-- Elementwise `astype(int)`: a float truncates toward zero, a digit
string parses, anything else raises. -/
def astypeInt (c : Cell) : Except DFError Int :=
  match c with
  | .num q => .ok (q.num.tdiv (q.den : Int))
  | .str s =>
      match pyInt? s with
      | some n => .ok n
      | none => .error (.typeError ("invalid literal for int: " ++ s))
  | _ => .error (.typeError "cannot convert to int")

/-- Model of `publications_by_year` (lines 78-83):
`df["year"].dropna().astype(int).value_counts().sort_index()`, the empty
series when the `year` column is absent. -/
def publications_by_year (t : Table) : Except DFError (List (Int × Nat)) :=
  if "year" ∈ t.cols then do
    let ys ← mapME astypeInt ((t.getCol "year").filter (fun c => !c.isna))
    pure (List.insertionSort (fun p q : Int × Nat => p.1 ≤ q.1) (counterOf ys))
  else pure []

/-- First column name of `cands` present in `cols` (the for/break column
resolution loops of `data_analysis.py`). -/
def firstPresent (cands : List String) (cols : List String) : Option String :=
  cands.find? (fun c => decide (c ∈ cols))

/-- Elementwise `fillna("Unknown")`. -/
def fillUnknown (c : Cell) : Cell := if c.isna then .str "Unknown" else c

/-- Model of `source_counts` (lines 99-108): resolve the column through
the priority list, map missing values to `"Unknown"`, and return the
full `value_counts` distribution. -/
def source_counts (t : Table) : List (Cell × Nat) :=
  match firstPresent ["source_x", "source", "publish_year"] t.cols with
  | none => []
  | some col => value_counts ((t.getCol col).map fillUnknown)

/-- Model of `title_word_frequency` (lines 111-125): lowercase the
non-missing titles, take the regex `[a-zA-Z]{2,}` tokens that are not
stopwords, count them, and return the `top_n` most common. -/
def title_word_frequency (t : Table) (top_n : Nat) : List (String × Nat) :=
  let texts : List String :=
    if "title" ∈ t.cols then
      (t.getCol "title").filterMap (fun c =>
        if c.isna then none else some (pyLower (Cell.toStr c)))
    else []
  let words : List String :=
    (texts.map (fun s => (alphaTokens s).filter
      (fun w => !(STOPWORDS.contains w)))).flatten
  mostCommon (counterOf words) top_n

/-! ### estimated_analysis.py -/

/-- One Year cell through lines 53-55 of `estimated_analysis.py`:
`astype(str).str.strip()`, then `pd.to_numeric(..., errors="coerce")`,
then `astype("Int64")`.  The nullable-integer cast keeps `NaN` as `NA`
and raises a `TypeError` on a non-integral float. -/
def yearCell (c : Cell) : Except DFError Cell :=
  match toNumeric (.str (pyStrip (Cell.toStr c))) with
  | .num q =>
      if q.den = 1 then .ok (.num q)
      else .error (.typeError "cannot safely cast non-equivalent float64 to int64")
  | _ => .ok Cell.na

/-- Line 35 of `estimated_analysis.py`: strip whitespace from the column
names. -/
def ceStripCols (t : Table) : Table := ⟨t.cols.map pyStrip, t.rows⟩

/-- Lines 53-55: the `Year` conversion, when a `Year` column exists. -/
def ceYear (t : Table) : Except DFError Table :=
  if "Year" ∈ t.cols then t.mapColE "Year" yearCell else pure t

/-- Lines 42-50 and 57-66: locate the median source columns by exact
name and derive `cases_median` / `deaths_median` with `pd.to_numeric`,
or assign the scalar `pd.NA` when the source column is absent.  (The
lookups of lines 42-50 run before the `Year` conversion in the source,
but that conversion does not change the column set, so the same columns
are found.) -/
def ceM1 (t : Table) : Table :=
  if "No. of cases_median" ∈ t.cols then
    t.deriveCol "cases_median" "No. of cases_median" toNumeric
  else t.setColConst "cases_median" Cell.na

def ceMedians (t : Table) : Table :=
  if "No. of deaths_median" ∈ (ceM1 t).cols then
    (ceM1 t).deriveCol "deaths_median" "No. of deaths_median" toNumeric
  else (ceM1 t).setColConst "deaths_median" Cell.na

/-- Lines 68-71: project to the fixed output column set, keeping only
the columns that exist. -/
def ceProject (t : Table) : Table :=
  t.select (["Country", "Year", "cases_median", "deaths_median", "WHO Region"].filter
    (fun c => decide (c ∈ t.cols)))

/-- Lines 73-76: drop rows with missing `Country` (a `KeyError` when the
column is absent), then rows with missing `Year` when a `Year` column
exists. -/
def ceFilter (t : Table) : Except DFError Table :=
  match idxOf? t.cols "Country" with
  | some ic =>
      match idxOf? t.cols "Year" with
      | some iy =>
          pure ((t.filterRows (fun r => !(r.getD ic Cell.nan).isna)).filterRows
            (fun r => !(r.getD iy Cell.nan).isna))
      | none => pure (t.filterRows (fun r => !(r.getD ic Cell.nan).isna))
  | none => .error (.keyError "Country")

/-- Model of `clean_estimated` (lines 25-78 of `estimated_analysis.py`). -/
def clean_estimated (t : Table) : Except DFError Table := do
  let t2 ← ceYear (Table.stripObjects (ceStripCols t))
  ceFilter (ceProject (ceMedians t2))

/-- Numeric view of a cell. -/
def cellNum? : Cell → Option ℚ
  | .num q => some q
  | _ => none

/-- Aggregation of one year group: `sum()` adds the non-missing values
(zero for an empty group); any other `agg` string selects `median()`
(midpoint of the two middle values for an even count, `NaN` when the
group has no non-missing value). -/
def aggSeries (agg : String) (vals : List ℚ) : Cell :=
  if agg == "sum" then Cell.num (vals.foldl ratAdd 0)
  else
    let s := List.insertionSort (fun p q : ℚ => p ≤ q) vals
    if s.length = 0 then Cell.nan
    else if s.length % 2 = 1 then Cell.num (s.getD (s.length / 2) 0)
    else Cell.num (ratHalf (ratAdd (s.getD (s.length / 2 - 1) 0) (s.getD (s.length / 2) 0)))

/-- Model of `plot_cases_over_time` (lines 97-121): the series the
figure renders, obtained by `df.groupby("Year")["cases_median"]` with
the selected aggregation.  A pandas groupby drops missing keys and
orders the groups by key ascending. -/
def plot_cases_over_time (t : Table) (agg : String) :
    Except DFError (List (Cell × Cell)) :=
  if "Year" ∈ t.cols ∧ "cases_median" ∈ t.cols then
    let pairs := (t.getCol "Year").zip (t.getCol "cases_median")
    let keys := List.insertionSort cellLe
      (distinctKeys ((pairs.map Prod.fst).filter (fun c => !c.isna)))
    .ok (keys.map (fun k =>
      (k, aggSeries agg ((pairs.filter (fun p => decide (p.1 = k))).filterMap
        (fun p => cellNum? p.2)))))
  else .error (.invalidInput "DataFrame must contain Year and cases_median columns")

/-- Model of `plot_top_countries_for_year` (lines 124-136): the
`(Country, cases_median)` pairs the figure renders.  The source sorts
with `sort_values("cases_median", ascending=False)` under the default
`kind="quicksort"` (numpy introsort), which fixes the multiset and the
descending key order of the result but, being unstable beyond numpy's
small-array insertion-sort cutoff, does not determine the relative
order of rows with equal keys; an insertion sort stands in here for
some such ordering, and no theorem below relies on which tie order it
produces. -/
def plot_top_countries_for_year (t : Table) (year : Int) (top_n : Nat) :
    Except DFError (List (Cell × Cell)) :=
  match idxOf? t.cols "Year" with
  | none => .error (.invalidInput "Year column not found")
  | some iy =>
    match idxOf? t.cols "cases_median" with
    | none => .error (.keyError "cases_median")
    | some im =>
      let sub := t.rows.filter (fun r => decide (r.getD iy Cell.nan = Cell.num (year : ℚ)))
      let sub2 := sub.filter (fun r => !(r.getD im Cell.nan).isna)
      let sorted := List.insertionSort
        (fun r s : List Cell => cellLe (s.getD im Cell.nan) (r.getD im Cell.nan)) sub2
      let top := sorted.take top_n
      match idxOf? t.cols "Country" with
      | none => .error (.keyError "Country")
      | some icn => .ok (top.map (fun r => (r.getD icn Cell.nan, r.getD im Cell.nan)))


/-! ### Supporting lemmas -/

/-- Every character of every run produced by `runsBy p` satisfies `p`. -/
theorem runsBy_chars (p : Char → Bool) :
    ∀ (l : List Char), ∀ run ∈ runsBy p l, ∀ c ∈ run, p c = true := by
  intro l
  induction l with
  | nil => intro run h; simp [runsBy] at h
  | cons c rest ih =>
    intro run hrun x hx
    simp only [runsBy] at hrun
    by_cases hc : p c = true
    · simp only [hc, if_true] at hrun
      cases rest with
      | nil =>
        simp at hrun
        subst hrun; simp at hx; subst hx; exact hc
      | cons d tl =>
        by_cases hd : p d = true
        · simp only [hd, if_true] at hrun
          cases hr : runsBy p (d :: tl) with
          | nil =>
            rw [hr] at hrun; simp at hrun
            subst hrun; simp at hx; subst hx; exact hc
          | cons run0 rs =>
            rw [hr] at hrun; simp at hrun
            rcases hrun with h1 | h2
            · subst h1
              rcases List.mem_cons.mp hx with h | h
              · subst h; exact hc
              · exact ih run0 (by rw [hr]; simp) x h
            · exact ih run (by rw [hr]; simp [h2]) x hx
        · simp only [hd, if_false] at hrun
          rcases List.mem_cons.mp hrun with h | h
          · subst h; simp at hx; subst hx; exact hc
          · exact ih run h x hx
    · simp only [hc, if_false] at hrun
      exact ih run hrun x hx

theorem ratAdd_eq (a b : ℚ) : ratAdd a b = a + b := by
  conv_rhs => rw [← Rat.num_divInt_den a, ← Rat.num_divInt_den b]
  rw [Rat.divInt_add_divInt _ _ (Int.natCast_ne_zero.mpr a.den_nz)
    (Int.natCast_ne_zero.mpr b.den_nz)]
  rfl

theorem ratHalf_eq (q : ℚ) : ratHalf q = q / 2 := by
  conv_rhs => rw [← Rat.num_divInt_den q]
  rw [show (2 : ℚ) = Rat.divInt (2 : Int) (1 : Int) by norm_num, Rat.divInt_div_divInt]
  show Rat.divInt q.num (2 * (q.den : Int)) = _
  rw [Int.mul_one, Int.mul_comm]

/-! ### Basic lemmas about the table operations -/

theorem idxOf?_isSome_iff (l : List String) (c : String) :
    (idxOf? l c).isSome ↔ c ∈ l := by
  induction l with
  | nil => simp [idxOf?]
  | cons a l ih =>
    simp only [idxOf?]
    by_cases h : a = c
    · subst h; simp
    · rw [if_neg h]
      constructor
      · intro hs
        cases hm : idxOf? l c with
        | none => rw [hm] at hs; simp at hs
        | some j => exact List.mem_cons_of_mem _ (ih.mp (by rw [hm]; rfl))
      · intro hm
        have hcl : c ∈ l := by
          rcases List.mem_cons.mp hm with rfl | h'
          · exact absurd rfl h
          · exact h'
        have hsome := ih.mpr hcl
        cases hm2 : idxOf? l c with
        | none => rw [hm2] at hsome; simp at hsome
        | some j => rfl

theorem idxOf?_eq_none_iff (l : List String) (c : String) :
    idxOf? l c = none ↔ c ∉ l := by
  rw [← idxOf?_isSome_iff]
  cases idxOf? l c <;> simp

theorem idxOf?_get (l : List String) (c : String) (i : Nat)
    (h : idxOf? l c = some i) : i < l.length ∧ l.getD i "" = c := by
  induction l generalizing i with
  | nil => simp [idxOf?] at h
  | cons a l ih =>
    simp only [idxOf?] at h
    by_cases ha : a = c
    · simp [ha] at h; subst h; simpa using ha
    · simp only [ha, if_false, Option.map_eq_some'] at h
      obtain ⟨j, hj, rfl⟩ := h
      have := ih j hj
      exact ⟨by simpa using this.1, by simpa using this.2⟩

theorem idxOf?_append_left (l l' : List String) (c : String) (h : c ∈ l) :
    idxOf? (l ++ l') c = idxOf? l c := by
  induction l with
  | nil => simp at h
  | cons a l ih =>
    simp only [List.cons_append, idxOf?]
    by_cases ha : a = c
    · simp [ha]
    · have hcl : c ∈ l := by
        rcases List.mem_cons.mp h with h' | h'
        · exact absurd h'.symm ha
        · exact h'
      simp only [ha, if_false, List.append_eq, ih hcl]

theorem idxOf?_append_not_mem (l l' : List String) (c : String) (h : c ∉ l) :
    idxOf? (l ++ l') c = (idxOf? l' c).map (· + l.length) := by
  induction l with
  | nil => simp
  | cons a l ih =>
    have ha : a ≠ c := fun e => h (by simp [e])
    have h' : c ∉ l := fun e => h (by simp [e])
    simp only [List.cons_append, idxOf?, ha, if_false, List.append_eq, ih h',
      Option.map_map]
    cases idxOf? l' c with
    | none => rfl
    | some j =>
      show some (j + l.length + 1) = some (j + (l.length + 1))
      rw [Nat.add_assoc]


/-- Distinct names occupy distinct indices. -/
theorem idxOf?_ne (l : List String) (c c' : String) (i i' : Nat)
    (h : idxOf? l c = some i) (h' : idxOf? l c' = some i') (hne : c ≠ c') :
    i ≠ i' := by
  intro e
  subst e
  have g := idxOf?_get l c i h
  have g' := idxOf?_get l c' i h'
  exact hne (g.2 ▸ g'.2)

/-! #### List access micro-lemmas -/

theorem listSet_getD_self {α : Type} (l : List α) (i : Nat) (d : α) :
    l.set i (l.getD i d) = l := by
  induction l generalizing i with
  | nil => rfl
  | cons a l ih =>
    cases i with
    | zero => rfl
    | succ j => simp only [List.getD_cons_succ, List.set_cons_succ, ih]

theorem listGetD_set_eq {α : Type} (l : List α) (i : Nat) (v d : α)
    (h : i < l.length) : (l.set i v).getD i d = v := by
  induction l generalizing i with
  | nil => simp at h
  | cons a l ih =>
    cases i with
    | zero => rfl
    | succ j =>
      simp only [List.set_cons_succ, List.getD_cons_succ]
      exact ih j (by simpa using h)

theorem listGetD_set_ne {α : Type} (l : List α) (i j : Nat) (v d : α)
    (h : j ≠ i) : (l.set i v).getD j d = l.getD j d := by
  induction l generalizing i j with
  | nil => rfl
  | cons a l ih =>
    cases i with
    | zero => cases j with
      | zero => exact absurd rfl h
      | succ j' => rfl
    | succ i' => cases j with
      | zero => rfl
      | succ j' =>
        simp only [List.set_cons_succ, List.getD_cons_succ]
        exact ih i' j' (fun e => h (by rw [e]))

theorem listGetD_append_left {α : Type} (l l' : List α) (i : Nat) (d : α)
    (h : i < l.length) : (l ++ l').getD i d = l.getD i d := by
  induction l generalizing i with
  | nil => simp at h
  | cons a l ih =>
    cases i with
    | zero => rfl
    | succ j =>
      simp only [List.cons_append, List.getD_cons_succ]
      exact ih j (by simpa using h)

theorem listGetD_append_length {α : Type} (l : List α) (v d : α) :
    (l ++ [v]).getD l.length d = v := by
  induction l with
  | nil => rfl
  | cons a l ih => simp only [List.cons_append, List.length_cons, List.getD_cons_succ, ih]

theorem listGetD_map {α β : Type} (f : α → β) (l : List α) (i : Nat) (d : β) (d' : α)
    (h : i < l.length) : (l.map f).getD i d = f (l.getD i d') := by
  induction l generalizing i with
  | nil => simp at h
  | cons a l ih =>
    cases i with
    | zero => rfl
    | succ j =>
      simp only [List.map_cons, List.getD_cons_succ]
      exact ih j (by simpa using h)

theorem listGetD_mapIdx {α : Type} (f : Nat → α → α) (l : List α) (i : Nat) (d : α)
    (h : i < l.length) : (l.mapIdx f).getD i d = f i (l.getD i d) := by
  induction l generalizing f i with
  | nil => simp at h
  | cons a l ih =>
    cases i with
    | zero => simp [List.mapIdx_cons]
    | succ j =>
      simp only [List.mapIdx_cons, List.getD_cons_succ]
      exact ih (fun k => f (k + 1)) j (by simpa using h)

theorem listMap_eq_self {α : Type} (l : List α) (f : α → α)
    (h : ∀ a ∈ l, f a = a) : l.map f = l := by
  induction l with
  | nil => rfl
  | cons a l ih =>
    simp only [List.map_cons, h a (by simp)]
    rw [ih (fun x hx => h x (by simp [hx]))]

/-! #### mapME lemmas -/

theorem mapME_ok_forall₂ {ε α β : Type} (f : α → Except ε β) (l : List α)
    (l' : List β) (h : mapME f l = .ok l') :
    List.Forall₂ (fun a b => f a = .ok b) l l' := by
  induction l generalizing l' with
  | nil =>
    simp only [mapME] at h
    cases h
    exact List.Forall₂.nil
  | cons a l ih =>
    simp only [mapME, bind, Except.bind] at h
    cases hf : f a with
    | error e => rw [hf] at h; simp at h
    | ok b =>
      rw [hf] at h
      cases hm : mapME f l with
      | error e => rw [hm] at h; simp at h
      | ok tl =>
        rw [hm] at h
        simp only [pure, Except.pure, Except.ok.injEq] at h
        subst h
        exact List.Forall₂.cons hf (ih tl hm)

theorem mapME_ok_length {ε α β : Type} (f : α → Except ε β) (l : List α)
    (l' : List β) (h : mapME f l = .ok l') : l'.length = l.length :=
  (List.Forall₂.length_eq (mapME_ok_forall₂ f l l' h)).symm

theorem forall₂_mem_right {α β : Type} {R : α → β → Prop} :
    ∀ {l : List α} {l' : List β}, List.Forall₂ R l l' → ∀ b ∈ l', ∃ a ∈ l, R a b := by
  intro l l' h
  induction h with
  | nil => intro b hb; simp at hb
  | cons hr hrest ih =>
    intro b hb
    rcases List.mem_cons.mp hb with rfl | hb'
    · exact ⟨_, by simp, hr⟩
    · obtain ⟨a, ha, hra⟩ := ih b hb'
      exact ⟨a, by simp [ha], hra⟩

theorem mapME_ok_of_forall {ε α β : Type} (f : α → Except ε β) (l : List α)
    (h : ∀ a ∈ l, ∃ b, f a = .ok b) : ∃ l', mapME f l = .ok l' := by
  induction l with
  | nil => exact ⟨[], rfl⟩
  | cons a l ih =>
    obtain ⟨b, hb⟩ := h a (by simp)
    obtain ⟨tl, htl⟩ := ih (fun x hx => h x (by simp [hx]))
    exact ⟨b :: tl, by simp [mapME, bind, Except.bind, hb, htl, pure, Except.pure]⟩

/-! #### Shape lemmas for the table operations -/

theorem Table.WF_iff (t : Table) :
    t.WF ↔ t.cols.Nodup ∧ ∀ r ∈ t.rows, r.length = t.cols.length := Iff.rfl

theorem Table.mapCol_cols (t : Table) (c : String) (f : Cell → Cell) :
    (t.mapCol c f).cols = t.cols := by
  unfold Table.mapCol
  cases idxOf? t.cols c <;> rfl

theorem Table.deriveCol_cols (t : Table) (d s : String) (f : Cell → Cell) :
    (t.deriveCol d s f).cols = if d ∈ t.cols then t.cols else t.cols ++ [d] := by
  unfold Table.deriveCol
  cases h : idxOf? t.cols d with
  | some i =>
    have : d ∈ t.cols := (idxOf?_isSome_iff t.cols d).mp (by rw [h]; rfl)
    simp [this]
  | none =>
    have : d ∉ t.cols := (idxOf?_eq_none_iff t.cols d).mp h
    simp [this]

theorem Table.setColConst_cols (t : Table) (d : String) (v : Cell) :
    (t.setColConst d v).cols = if d ∈ t.cols then t.cols else t.cols ++ [d] := by
  unfold Table.setColConst
  cases h : idxOf? t.cols d with
  | some i =>
    have : d ∈ t.cols := (idxOf?_isSome_iff t.cols d).mp (by rw [h]; rfl)
    simp [this]
  | none =>
    have : d ∉ t.cols := (idxOf?_eq_none_iff t.cols d).mp h
    simp [this]

theorem Table.filterRows_cols (t : Table) (p : List Cell → Bool) :
    (t.filterRows p).cols = t.cols := rfl

theorem Table.select_cols (t : Table) (cs : List String) :
    (t.select cs).cols = cs := rfl

theorem Table.stripObjects_cols (t : Table) : t.stripObjects.cols = t.cols := rfl

theorem Table.mapColE_cols (t : Table) (c : String) (f : Cell → Except DFError Cell)
    (u : Table) (h : t.mapColE c f = .ok u) : u.cols = t.cols := by
  unfold Table.mapColE at h
  cases hi : idxOf? t.cols c with
  | none =>
    rw [hi] at h
    cases h
    rfl
  | some i =>
    rw [hi] at h
    simp only [bind, Except.bind] at h
    split at h
    · exact absurd h (by simp)
    · cases h
      rfl

theorem Table.mapCol_rows_length (t : Table) (c : String) (f : Cell → Cell) :
    (t.mapCol c f).rows.length = t.rows.length := by
  unfold Table.mapCol
  cases idxOf? t.cols c <;> simp

theorem Table.deriveCol_rows_length (t : Table) (d s : String) (f : Cell → Cell) :
    (t.deriveCol d s f).rows.length = t.rows.length := by
  unfold Table.deriveCol
  cases idxOf? t.cols d <;> simp

theorem Table.setColConst_rows_length (t : Table) (d : String) (v : Cell) :
    (t.setColConst d v).rows.length = t.rows.length := by
  unfold Table.setColConst
  cases idxOf? t.cols d <;> simp

theorem Table.stripObjects_rows_length (t : Table) :
    t.stripObjects.rows.length = t.rows.length := by
  simp [Table.stripObjects]

theorem Table.filterRows_length_le (t : Table) (p : List Cell → Bool) :
    (t.filterRows p).rows.length ≤ t.rows.length :=
  List.length_filter_le p t.rows

theorem Table.mapColE_rows_length (t : Table) (c : String)
    (f : Cell → Except DFError Cell) (u : Table) (h : t.mapColE c f = .ok u) :
    u.rows.length = t.rows.length := by
  unfold Table.mapColE at h
  cases hi : idxOf? t.cols c with
  | none =>
    rw [hi] at h
    cases h
    rfl
  | some i =>
    rw [hi] at h
    simp only [bind, Except.bind] at h
    split at h
    · exact absurd h (by simp)
    · next rows' hm =>
      cases h
      exact mapME_ok_length _ _ _ hm

theorem Table.WF_mapCol (t : Table) (c : String) (f : Cell → Cell) (h : t.WF) :
    (t.mapCol c f).WF := by
  obtain ⟨hn, hl⟩ := h
  unfold Table.mapCol
  cases idxOf? t.cols c with
  | none => exact ⟨hn, hl⟩
  | some i =>
    refine ⟨hn, ?_⟩
    intro r hr
    simp only [List.mem_map] at hr
    obtain ⟨r0, h0, rfl⟩ := hr
    simp [List.length_set, hl r0 h0]

theorem Table.WF_deriveCol (t : Table) (d s : String) (f : Cell → Cell) (h : t.WF) :
    (t.deriveCol d s f).WF := by
  obtain ⟨hn, hl⟩ := h
  unfold Table.deriveCol
  cases hi : idxOf? t.cols d with
  | some i =>
    refine ⟨hn, ?_⟩
    intro r hr
    simp only [List.mem_map] at hr
    obtain ⟨r0, h0, rfl⟩ := hr
    simp [List.length_set, hl r0 h0]
  | none =>
    have hd : d ∉ t.cols := (idxOf?_eq_none_iff t.cols d).mp hi
    refine ⟨by simp [List.nodup_append, hn, hd], ?_⟩
    intro r hr
    simp only [List.mem_map] at hr
    obtain ⟨r0, h0, rfl⟩ := hr
    simp [hl r0 h0]

theorem Table.WF_setColConst (t : Table) (d : String) (v : Cell) (h : t.WF) :
    (t.setColConst d v).WF := by
  obtain ⟨hn, hl⟩ := h
  unfold Table.setColConst
  cases hi : idxOf? t.cols d with
  | some i =>
    refine ⟨hn, ?_⟩
    intro r hr
    simp only [List.mem_map] at hr
    obtain ⟨r0, h0, rfl⟩ := hr
    simp [List.length_set, hl r0 h0]
  | none =>
    have hd : d ∉ t.cols := (idxOf?_eq_none_iff t.cols d).mp hi
    refine ⟨by simp [List.nodup_append, hn, hd], ?_⟩
    intro r hr
    simp only [List.mem_map] at hr
    obtain ⟨r0, h0, rfl⟩ := hr
    simp [hl r0 h0]

theorem Table.WF_filterRows (t : Table) (p : List Cell → Bool) (h : t.WF) :
    (t.filterRows p).WF := by
  obtain ⟨hn, hl⟩ := h
  exact ⟨hn, fun r hr => hl r (List.mem_of_mem_filter hr)⟩

theorem Table.WF_stripObjects (t : Table) (h : t.WF) : t.stripObjects.WF := by
  obtain ⟨hn, hl⟩ := h
  refine ⟨hn, ?_⟩
  intro r hr
  simp only [Table.stripObjects, List.mem_map] at hr
  obtain ⟨r0, h0, rfl⟩ := hr
  simp [Table.stripObjects, hl r0 h0]

theorem Table.WF_select (t : Table) (cs : List String) (hcs : cs.Nodup) :
    (t.select cs).WF := by
  refine ⟨hcs, ?_⟩
  intro r hr
  simp only [Table.select, List.mem_map] at hr
  obtain ⟨r0, h0, rfl⟩ := hr
  simp [Table.select]

theorem Table.WF_mapColE (t : Table) (c : String) (f : Cell → Except DFError Cell)
    (u : Table) (hok : t.mapColE c f = .ok u) (h : t.WF) : u.WF := by
  obtain ⟨hn, hl⟩ := h
  unfold Table.mapColE at hok
  cases hi : idxOf? t.cols c with
  | none =>
    rw [hi] at hok
    cases hok
    exact ⟨hn, hl⟩
  | some i =>
    rw [hi] at hok
    simp only [bind, Except.bind] at hok
    split at hok
    · exact absurd hok (by simp)
    · next rows' hm =>
      cases hok
      refine ⟨hn, ?_⟩
      intro r hr
      have h2 := mapME_ok_forall₂ _ _ _ hm
      obtain ⟨r0, h0, hrel⟩ := forall₂_mem_right h2 r hr
      cases hfr : f (r0.getD i Cell.nan) with
      | error e => rw [hfr] at hrel; simp at hrel
      | ok v =>
        rw [hfr] at hrel
        simp only [pure, Except.pure, Except.ok.injEq] at hrel
        subst hrel
        simp [List.length_set, hl r0 h0]

/-! #### Column-content lemmas for the table operations -/

theorem listMap_congr {α β : Type} {f g : α → β} {l : List α}
    (h : ∀ a ∈ l, f a = g a) : l.map f = l.map g := by
  induction l with
  | nil => rfl
  | cons a l ih =>
    simp only [List.map_cons, h a (by simp)]
    rw [ih (fun x hx => h x (by simp [hx]))]

theorem listMap_const {α β : Type} (l : List α) (v : β) :
    l.map (fun _ => v) = List.replicate l.length v := by
  induction l with
  | nil => rfl
  | cons a l ih => simp [List.replicate, ih]

theorem idxOf?_some_of_mem (l : List String) (c : String) (hc : c ∈ l) :
    ∃ i, idxOf? l c = some i ∧ i < l.length := by
  have hs := (idxOf?_isSome_iff l c).mpr hc
  cases h : idxOf? l c with
  | none => rw [h] at hs; simp at hs
  | some i => exact ⟨i, rfl, (idxOf?_get l c i h).1⟩

theorem Table.getCol_eq_nil (t : Table) (c : String) (h : c ∉ t.cols) :
    t.getCol c = [] := by
  unfold Table.getCol
  rw [(idxOf?_eq_none_iff _ _).mpr h]

theorem Table.getCol_mapCol_self (t : Table) (c : String) (f : Cell → Cell)
    (hWF : t.WF) (hc : c ∈ t.cols) :
    (t.mapCol c f).getCol c = (t.getCol c).map f := by
  obtain ⟨i, hi, hilt⟩ := idxOf?_some_of_mem t.cols c hc
  unfold Table.mapCol Table.getCol
  rw [hi]
  simp only [hi, List.map_map]
  apply listMap_congr
  intro r hr
  simp only [Function.comp_apply]
  exact listGetD_set_eq _ _ _ _ (by rw [hWF.2 r hr]; exact hilt)

theorem Table.getCol_mapCol_other (t : Table) (c c' : String) (f : Cell → Cell)
    (hne : c' ≠ c) : (t.mapCol c f).getCol c' = t.getCol c' := by
  unfold Table.mapCol
  cases hi : idxOf? t.cols c with
  | none => rfl
  | some i =>
    unfold Table.getCol
    cases hi' : idxOf? t.cols c' with
    | none => rfl
    | some i' =>
      simp only [List.map_map]
      apply listMap_congr
      intro r hr
      simp only [Function.comp_apply]
      exact listGetD_set_ne _ _ _ _ _ (idxOf?_ne t.cols c' c i' i hi' hi hne)

theorem Table.getCol_deriveCol_self (t : Table) (d s : String) (f : Cell → Cell)
    (hWF : t.WF) (hs : s ∈ t.cols) :
    (t.deriveCol d s f).getCol d = (t.getCol s).map f := by
  obtain ⟨js, hjs, hjslt⟩ := idxOf?_some_of_mem t.cols s hs
  unfold Table.deriveCol Table.getCol
  rw [hjs]
  cases hid : idxOf? t.cols d with
  | some i =>
    have hilt := (idxOf?_get _ _ _ hid).1
    simp only [hid, List.map_map]
    apply listMap_congr
    intro r hr
    simp only [Function.comp_apply]
    exact listGetD_set_eq _ _ _ _ (by rw [hWF.2 r hr]; exact hilt)
  | none =>
    have hd : d ∉ t.cols := (idxOf?_eq_none_iff t.cols d).mp hid
    have : idxOf? (t.cols ++ [d]) d = some t.cols.length := by
      rw [idxOf?_append_not_mem _ _ _ hd]
      simp [idxOf?]
    simp only [this, List.map_map]
    apply listMap_congr
    intro r hr
    simp only [Function.comp_apply]
    rw [← hWF.2 r hr]
    exact listGetD_append_length _ _ _

theorem Table.getCol_deriveCol_other (t : Table) (d s : String) (c : String)
    (f : Cell → Cell) (hWF : t.WF) (hne : c ≠ d) :
    (t.deriveCol d s f).getCol c = t.getCol c := by
  unfold Table.deriveCol Table.getCol
  cases hid : idxOf? t.cols d with
  | some i =>
    cases hic : idxOf? t.cols c with
    | none => rfl
    | some ic =>
      simp only [List.map_map]
      apply listMap_congr
      intro r hr
      simp only [Function.comp_apply]
      exact listGetD_set_ne _ _ _ _ _ (idxOf?_ne t.cols c d ic i hic hid hne)
  | none =>
    by_cases hc : c ∈ t.cols
    · obtain ⟨ic, hic, hiclt⟩ := idxOf?_some_of_mem t.cols c hc
      rw [idxOf?_append_left _ _ _ hc, hic]
      simp only [List.map_map]
      apply listMap_congr
      intro r hr
      simp only [Function.comp_apply]
      exact listGetD_append_left _ _ _ _ (by rw [hWF.2 r hr]; exact hiclt)
    · rw [idxOf?_append_not_mem _ _ _ hc, (idxOf?_eq_none_iff _ _).mpr hc]
      rw [(idxOf?_eq_none_iff [d] c).mpr (by simpa using hne)]
      rfl

theorem Table.getCol_setColConst_self (t : Table) (d : String) (v : Cell)
    (hWF : t.WF) :
    (t.setColConst d v).getCol d = List.replicate t.rows.length v := by
  unfold Table.setColConst Table.getCol
  cases hid : idxOf? t.cols d with
  | some i =>
    have hilt := (idxOf?_get _ _ _ hid).1
    simp only [hid, List.map_map]
    rw [← listMap_const t.rows v]
    apply listMap_congr
    intro r hr
    simp only [Function.comp_apply]
    exact listGetD_set_eq _ _ _ _ (by rw [hWF.2 r hr]; exact hilt)
  | none =>
    have hd : d ∉ t.cols := (idxOf?_eq_none_iff t.cols d).mp hid
    have : idxOf? (t.cols ++ [d]) d = some t.cols.length := by
      rw [idxOf?_append_not_mem _ _ _ hd]
      simp [idxOf?]
    simp only [this, List.map_map]
    rw [← listMap_const t.rows v]
    apply listMap_congr
    intro r hr
    simp only [Function.comp_apply]
    rw [← hWF.2 r hr]
    exact listGetD_append_length _ _ _

theorem Table.getCol_setColConst_other (t : Table) (d : String) (c : String)
    (v : Cell) (hWF : t.WF) (hne : c ≠ d) :
    (t.setColConst d v).getCol c = t.getCol c := by
  unfold Table.setColConst Table.getCol
  cases hid : idxOf? t.cols d with
  | some i =>
    cases hic : idxOf? t.cols c with
    | none => rfl
    | some ic =>
      simp only [List.map_map]
      apply listMap_congr
      intro r hr
      simp only [Function.comp_apply]
      exact listGetD_set_ne _ _ _ _ _ (idxOf?_ne t.cols c d ic i hic hid hne)
  | none =>
    by_cases hc : c ∈ t.cols
    · obtain ⟨ic, hic, hiclt⟩ := idxOf?_some_of_mem t.cols c hc
      rw [idxOf?_append_left _ _ _ hc, hic]
      simp only [List.map_map]
      apply listMap_congr
      intro r hr
      simp only [Function.comp_apply]
      exact listGetD_append_left _ _ _ _ (by rw [hWF.2 r hr]; exact hiclt)
    · rw [idxOf?_append_not_mem _ _ _ hc, (idxOf?_eq_none_iff _ _).mpr hc]
      rw [(idxOf?_eq_none_iff [d] c).mpr (by simpa using hne)]
      rfl

theorem Table.getCol_select (t : Table) (cs : List String) (c : String)
    (hc : c ∈ cs) (hct : c ∈ t.cols) :
    (t.select cs).getCol c = t.getCol c := by
  obtain ⟨k, hk, hklt⟩ := idxOf?_some_of_mem cs c hc
  obtain ⟨i, hi, _⟩ := idxOf?_some_of_mem t.cols c hct
  unfold Table.select Table.getCol
  simp only [hk, hi, List.map_map]
  apply listMap_congr
  intro r hr
  simp only [Function.comp_apply]
  rw [listGetD_map _ _ _ _ "" hklt, (idxOf?_get cs c k hk).2, hi]

theorem Table.getCol_filterRows_subset (t : Table) (p : List Cell → Bool)
    (c : String) (x : Cell) (hx : x ∈ (t.filterRows p).getCol c) :
    x ∈ t.getCol c := by
  by_cases hc : c ∈ t.cols
  · obtain ⟨i, hi, _⟩ := idxOf?_some_of_mem t.cols c hc
    unfold Table.filterRows Table.getCol at hx
    unfold Table.getCol
    rw [hi] at hx ⊢
    simp only [List.mem_map] at hx ⊢
    obtain ⟨r, hr, rfl⟩ := hx
    exact ⟨r, List.mem_of_mem_filter hr, rfl⟩
  · unfold Table.filterRows Table.getCol at hx
    rw [(idxOf?_eq_none_iff _ _).mpr hc] at hx
    simp at hx

theorem Table.getCol_stripObjects (t : Table) (c : String) (hWF : t.WF)
    (hc : c ∈ t.cols) :
    t.stripObjects.getCol c =
      if isObjectDtype (t.getCol c) then
        (t.getCol c).map (fun x => Cell.str (pyStrip (Cell.toStr x)))
      else t.getCol c := by
  obtain ⟨i, hi, hilt⟩ := idxOf?_some_of_mem t.cols c hc
  have hcol : t.getCol c = t.rows.map (fun r => r.getD i Cell.nan) := by
    unfold Table.getCol
    rw [hi]
  have hmem : (i ∈ (List.range t.cols.length).filter
      (fun j => isObjectDtype (t.colAt j))) ↔ isObjectDtype (t.getCol c) = true := by
    rw [List.mem_filter, List.mem_range]
    have hca : t.colAt i = t.getCol c := by
      unfold Table.colAt
      rw [hcol]
    rw [hca]
    exact ⟨fun h => h.2, fun h => ⟨hilt, h⟩⟩
  have hlhs : t.stripObjects.getCol c = t.rows.map (fun r =>
      if i ∈ (List.range t.cols.length).filter (fun j => isObjectDtype (t.colAt j))
      then Cell.str (pyStrip (Cell.toStr (r.getD i Cell.nan))) else r.getD i Cell.nan) := by
    unfold Table.stripObjects Table.getCol
    simp only [hi, List.map_map]
    apply listMap_congr
    intro r hr
    simp only [Function.comp_apply]
    rw [listGetD_mapIdx _ _ _ _ (by rw [hWF.2 r hr]; exact hilt)]
  rw [hlhs]
  by_cases hobj : isObjectDtype (t.getCol c) = true
  · rw [if_pos hobj, hcol, List.map_map]
    apply listMap_congr
    intro r hr
    simp only [Function.comp_apply]
    rw [if_pos (hmem.mpr hobj)]
  · rw [if_neg hobj, hcol]
    apply listMap_congr
    intro r hr
    rw [if_neg (fun hm => hobj (hmem.mp hm))]

/-! #### Fixed-point lemmas: operations that leave a table unchanged -/

theorem Table.filterRows_eq_self (t : Table) (p : List Cell → Bool)
    (h : ∀ r ∈ t.rows, p r = true) : t.filterRows p = t := by
  unfold Table.filterRows
  cases t with
  | mk cols rows => simp [List.filter_eq_self.mpr h]

theorem Table.mapCol_eq_self (t : Table) (c : String) (f : Cell → Cell)
    (h : ∀ x ∈ t.getCol c, f x = x) : t.mapCol c f = t := by
  unfold Table.mapCol
  cases hic : idxOf? t.cols c with
  | none => rfl
  | some i =>
    cases t with
    | mk cols rows =>
      simp only [Table.mk.injEq, true_and]
      apply listMap_eq_self
      intro r hr
      have hx : r.getD i Cell.nan ∈ Table.getCol ⟨cols, rows⟩ c := by
        unfold Table.getCol
        rw [hic]
        exact List.mem_map_of_mem _ hr
      rw [h _ hx]
      exact listSet_getD_self r i Cell.nan

theorem Table.deriveCol_eq_self (t : Table) (d s : String) (f : Cell → Cell)
    (hd : d ∈ t.cols) (hs : s ∈ t.cols)
    (h : ∀ p ∈ (t.getCol s).zip (t.getCol d), f p.1 = p.2) :
    t.deriveCol d s f = t := by
  obtain ⟨js, hjs, _⟩ := idxOf?_some_of_mem t.cols s hs
  obtain ⟨i, hi, _⟩ := idxOf?_some_of_mem t.cols d hd
  unfold Table.deriveCol
  rw [hjs, hi]
  cases t with
  | mk cols rows =>
    simp only [Table.mk.injEq, true_and]
    apply listMap_eq_self
    intro r hr
    have hp : (r.getD js Cell.nan, r.getD i Cell.nan) ∈
        (Table.getCol ⟨cols, rows⟩ s).zip (Table.getCol ⟨cols, rows⟩ d) := by
      unfold Table.getCol
      rw [hjs, hi, List.zip_map']
      exact List.mem_map_of_mem _ hr
    have := h _ hp
    simp only at this
    rw [this]
    exact listSet_getD_self r i Cell.nan

theorem Table.setColConst_eq_self (t : Table) (d : String) (v : Cell)
    (hd : d ∈ t.cols) (h : ∀ x ∈ t.getCol d, x = v) : t.setColConst d v = t := by
  obtain ⟨i, hi, _⟩ := idxOf?_some_of_mem t.cols d hd
  unfold Table.setColConst
  rw [hi]
  cases t with
  | mk cols rows =>
    simp only [Table.mk.injEq, true_and]
    apply listMap_eq_self
    intro r hr
    have hx : r.getD i Cell.nan ∈ Table.getCol ⟨cols, rows⟩ d := by
      unfold Table.getCol
      rw [hi]
      exact List.mem_map_of_mem _ hr
    rw [← h _ hx]
    exact listSet_getD_self r i Cell.nan

/-! #### Forall₂ transfer helpers and mapColE column lemmas -/

theorem forall₂_map_of_mem {α β γ δ : Type} {R : α → β → Prop} {R' : γ → δ → Prop}
    (g1 : α → γ) (g2 : β → δ) :
    ∀ {l : List α} {l' : List β}, List.Forall₂ R l l' →
      (∀ a b, a ∈ l → R a b → R' (g1 a) (g2 b)) →
      List.Forall₂ R' (l.map g1) (l'.map g2) := by
  intro l l' h
  induction h with
  | nil => intro _; exact .nil
  | cons hr hrest ih =>
    intro himp
    exact .cons (himp _ _ (by simp) hr)
      (ih (fun a b ha hr' => himp a b (by simp [ha]) hr'))

theorem forall₂_map_eq {α β γ : Type} {R : α → β → Prop} {g1 : α → γ} {g2 : β → γ} :
    ∀ {l : List α} {l' : List β}, List.Forall₂ R l l' →
      (∀ a b, R a b → g1 a = g2 b) → l.map g1 = l'.map g2 := by
  intro l l' h
  induction h with
  | nil => intro _; rfl
  | cons hr hrest ih =>
    intro himp
    simp only [List.map_cons, himp _ _ hr]
    rw [ih himp]

theorem Table.getCol_mapColE_self (t : Table) (c : String)
    (f : Cell → Except DFError Cell) (u : Table) (hWF : t.WF) (hc : c ∈ t.cols)
    (h : t.mapColE c f = .ok u) :
    List.Forall₂ (fun a b => f a = .ok b) (t.getCol c) (u.getCol c) := by
  obtain ⟨i, hi, hilt⟩ := idxOf?_some_of_mem t.cols c hc
  unfold Table.mapColE at h
  rw [hi] at h
  simp only [bind, Except.bind] at h
  split at h
  · exact absurd h (by simp)
  · next rows' hm =>
    cases h
    have h2 := mapME_ok_forall₂ _ _ _ hm
    unfold Table.getCol
    rw [hi]
    apply forall₂_map_of_mem _ _ h2
    intro r r' hr hrel
    cases hfr : f (r.getD i Cell.nan) with
    | error e => rw [hfr] at hrel; simp at hrel
    | ok v =>
      rw [hfr] at hrel
      simp only [pure, Except.pure, Except.ok.injEq] at hrel
      subst hrel
      rw [listGetD_set_eq _ _ _ _ (by rw [hWF.2 r hr]; exact hilt)]

theorem Table.getCol_mapColE_other (t : Table) (c c' : String)
    (f : Cell → Except DFError Cell) (u : Table) (hne : c' ≠ c)
    (h : t.mapColE c f = .ok u) : u.getCol c' = t.getCol c' := by
  unfold Table.mapColE at h
  cases hi : idxOf? t.cols c with
  | none =>
    rw [hi] at h
    cases h
    rfl
  | some i =>
    rw [hi] at h
    simp only [bind, Except.bind] at h
    split at h
    · exact absurd h (by simp)
    · next rows' hm =>
      cases h
      have h2 := mapME_ok_forall₂ _ _ _ hm
      unfold Table.getCol
      cases hic : idxOf? t.cols c' with
      | none => rfl
      | some i' =>
        apply Eq.symm
        apply forall₂_map_eq h2
        intro r r' hrel
        cases hfr : f (r.getD i Cell.nan) with
        | error e => rw [hfr] at hrel; simp at hrel
        | ok v =>
          rw [hfr] at hrel
          simp only [pure, Except.pure, Except.ok.injEq] at hrel
          subst hrel
          exact (listGetD_set_ne _ _ _ _ _ (idxOf?_ne t.cols c' c i' i hic hi hne)).symm

/-! #### Cell-level facts -/

theorem pdToDatetime_idem (c : Cell) : pdToDatetime (pdToDatetime c) = pdToDatetime c := by
  cases c with
  | str s =>
    unfold pdToDatetime
    cases hp : parseDate s <;> simp only [hp]
  | _ => rfl

theorem coerceTitle_idem (c : Cell) : coerceTitle (coerceTitle c) = coerceTitle c := rfl

theorem Cell.isStr_iff (c : Cell) : c.isStr = true ↔ ∃ s, c = Cell.str s := by
  cases c <;> simp [Cell.isStr]

/-! #### Stage lemmas for clean_data -/

theorem mem_cols_set_or_append (cols : List String) (d c : String) :
    c ∈ (if d ∈ cols then cols else cols ++ [d]) ↔ c ∈ cols ∨ c = d := by
  by_cases hd : d ∈ cols
  · rw [if_pos hd]
    constructor
    · exact Or.inl
    · rintro (h | rfl)
      · exact h
      · exact hd
  · rw [if_neg hd]
    simp [List.mem_append]

theorem cdStage1_WF (t : Table) (h : t.WF) : (cdStage1 t).WF := by
  unfold cdStage1
  split_ifs with h1 h2
  · exact Table.WF_deriveCol _ _ _ _ (Table.WF_mapCol _ _ _ h)
  · exact Table.WF_deriveCol _ _ _ _ (Table.WF_mapCol _ _ _ h)
  · exact Table.WF_setColConst _ _ _ h

theorem cdStage2_WF (t : Table) (h : t.WF) : (cdStage2 t).WF := by
  unfold cdStage2
  split_ifs with h1
  · exact Table.WF_deriveCol _ _ _ _ h
  · exact Table.WF_setColConst _ _ _ h

theorem cdStage3_WF (t : Table) (h : t.WF) : (cdStage3 t).WF := by
  unfold cdStage3
  split_ifs with h1
  · exact Table.WF_mapCol _ _ _ h
  · exact h

theorem cdStage1_mem (t : Table) (c : String) :
    c ∈ (cdStage1 t).cols ↔ c ∈ t.cols ∨ c = "year" := by
  unfold cdStage1
  split_ifs with h1 h2
  · rw [Table.deriveCol_cols, Table.mapCol_cols, mem_cols_set_or_append]
  · rw [Table.deriveCol_cols, Table.mapCol_cols, mem_cols_set_or_append]
  · rw [Table.setColConst_cols, mem_cols_set_or_append]

theorem cdStage2_mem (t : Table) (c : String) :
    c ∈ (cdStage2 t).cols ↔ c ∈ t.cols ∨ c = "abstract_word_count" := by
  unfold cdStage2
  split_ifs with h1
  · rw [Table.deriveCol_cols, mem_cols_set_or_append]
  · rw [Table.setColConst_cols, mem_cols_set_or_append]

theorem cdStage3_cols (t : Table) : (cdStage3 t).cols = t.cols := by
  unfold cdStage3
  split_ifs with h1
  · exact Table.mapCol_cols _ _ _
  · rfl

theorem cdStage1_rows_length (t : Table) : (cdStage1 t).rows.length = t.rows.length := by
  unfold cdStage1
  split_ifs with h1 h2
  · rw [Table.deriveCol_rows_length, Table.mapCol_rows_length]
  · rw [Table.deriveCol_rows_length, Table.mapCol_rows_length]
  · rw [Table.setColConst_rows_length]

theorem cdStage2_rows_length (t : Table) : (cdStage2 t).rows.length = t.rows.length := by
  unfold cdStage2
  split_ifs with h1
  · rw [Table.deriveCol_rows_length]
  · rw [Table.setColConst_rows_length]

theorem cdStage3_rows_length (t : Table) : (cdStage3 t).rows.length = t.rows.length := by
  unfold cdStage3
  split_ifs with h1
  · rw [Table.mapCol_rows_length]
  · rfl

theorem cdStage2_awc (t : Table) (hWF : t.WF) :
    ∀ x ∈ (cdStage2 t).getCol "abstract_word_count", ∃ q : ℚ, x = Cell.num q := by
  unfold cdStage2
  split_ifs with ha
  · rw [Table.getCol_deriveCol_self _ _ _ _ hWF ha]
    intro x hx
    rw [List.mem_map] at hx
    obtain ⟨c, _, rfl⟩ := hx
    exact ⟨_, rfl⟩
  · rw [Table.getCol_setColConst_self _ _ _ hWF]
    intro x hx
    rw [List.mem_replicate] at hx
    exact ⟨0, hx.2⟩

theorem cdStage2_getCol_other (t : Table) (c : String) (hWF : t.WF)
    (hne : c ≠ "abstract_word_count") : (cdStage2 t).getCol c = t.getCol c := by
  unfold cdStage2
  split_ifs with ha
  · exact Table.getCol_deriveCol_other _ _ _ _ _ hWF hne
  · exact Table.getCol_setColConst_other _ _ _ _ hWF hne

theorem cdStage3_title (t : Table) (hWF : t.WF) (ht : "title" ∈ t.cols) :
    ∀ x ∈ (cdStage3 t).getCol "title", x.isStr = true := by
  unfold cdStage3
  rw [if_pos ht, Table.getCol_mapCol_self _ _ _ hWF ht]
  intro x hx
  rw [List.mem_map] at hx
  obtain ⟨c, _, rfl⟩ := hx
  rfl

theorem cdStage3_getCol_other (t : Table) (c : String) (hne : c ≠ "title") :
    (cdStage3 t).getCol c = t.getCol c := by
  unfold cdStage3
  split_ifs with ht
  · exact Table.getCol_mapCol_other _ _ _ _ hne
  · rfl

/-- Successful `clean_data` runs are the filter of the three-stage
transform. -/
theorem clean_data_ok (t out : Table) (h : clean_data t = .ok out) :
    ∃ it ia,
      idxOf? (cdStage3 (cdStage2 (cdStage1 t))).cols "title" = some it ∧
      idxOf? (cdStage3 (cdStage2 (cdStage1 t))).cols "abstract_word_count" = some ia ∧
      out = (cdStage3 (cdStage2 (cdStage1 t))).filterRows (fun r =>
        keepTitleCell (r.getD it Cell.nan) || awcPos (r.getD ia Cell.nan)) := by
  unfold clean_data at h
  replace h : (match idxOf? (cdStage3 (cdStage2 (cdStage1 t))).cols "title",
      idxOf? (cdStage3 (cdStage2 (cdStage1 t))).cols "abstract_word_count" with
    | some it, some ia =>
      Except.ok ((cdStage3 (cdStage2 (cdStage1 t))).filterRows fun r =>
        keepTitleCell (r.getD it Cell.nan) || awcPos (r.getD ia Cell.nan))
    | _, _ => Except.error (DFError.keyError "title")) = Except.ok out := h
  split at h
  · next it ia hit hia =>
    cases h
    exact ⟨it, ia, hit, hia, rfl⟩
  · exact absurd h (by simp)

/-- C5: `clean_data` never increases the row count, and every retained
row has a non-empty stripped title or a positive abstract word count; on
the three-row example only the first two rows are retained, with
`abstract_word_count` values 3 and 0. -/
theorem claim_C5_clean_data :
    (∀ t out, t.WF → clean_data t = .ok out →
      out.rows.length ≤ t.rows.length ∧
      ∀ p ∈ (out.getCol "title").zip (out.getCol "abstract_word_count"),
        (∃ s, p.1 = Cell.str s ∧ pyStrip s ≠ "") ∨
        (∃ q : ℚ, p.2 = Cell.num q ∧ 0 < q)) ∧
    clean_data ⟨["title", "abstract"],
      [[Cell.str "", Cell.str "a b c"], [Cell.str "X", Cell.str ""],
       [Cell.str "", Cell.str ""]]⟩ =
      .ok ⟨["title", "abstract", "year", "abstract_word_count"],
        [[Cell.str "", Cell.str "a b c", Cell.nan, Cell.num 3],
         [Cell.str "X", Cell.str "", Cell.nan, Cell.num 0]]⟩ := by
  constructor
  · intro t out hWF hok
    obtain ⟨it, ia, hit, hia, hout⟩ := clean_data_ok t out hok
    have hWF1 := cdStage1_WF t hWF
    have hWF2 := cdStage2_WF _ hWF1
    constructor
    · rw [hout]
      calc (Table.filterRows _ _).rows.length
          ≤ (cdStage3 (cdStage2 (cdStage1 t))).rows.length :=
            Table.filterRows_length_le _ _
        _ = t.rows.length := by
            rw [cdStage3_rows_length, cdStage2_rows_length, cdStage1_rows_length]
    · intro p hp
      have htitle3 : "title" ∈ (cdStage3 (cdStage2 (cdStage1 t))).cols :=
        (idxOf?_isSome_iff _ _).mp (by rw [hit]; rfl)
      have htitle2 : "title" ∈ (cdStage2 (cdStage1 t)).cols := by
        rw [← cdStage3_cols]
        exact htitle3
      rw [hout] at hp
      unfold Table.filterRows Table.getCol at hp
      dsimp only at hp
      rw [hit, hia, List.zip_map', List.mem_map] at hp
      obtain ⟨r, hr, rfl⟩ := hp
      have hrmem : r ∈ (cdStage3 (cdStage2 (cdStage1 t))).rows :=
        List.mem_of_mem_filter hr
      have hpred := List.of_mem_filter hr
      have htc : (r.getD it Cell.nan) ∈
          (cdStage3 (cdStage2 (cdStage1 t))).getCol "title" := by
        unfold Table.getCol
        rw [hit]
        exact List.mem_map_of_mem _ hrmem
      have hstr := cdStage3_title _ hWF2 htitle2 _ htc
      have hac : (r.getD ia Cell.nan) ∈
          (cdStage3 (cdStage2 (cdStage1 t))).getCol "abstract_word_count" := by
        unfold Table.getCol
        rw [hia]
        exact List.mem_map_of_mem _ hrmem
      have hnum : ∃ q : ℚ, r.getD ia Cell.nan = Cell.num q := by
        rw [cdStage3_getCol_other _ _ (by decide)] at hac
        exact cdStage2_awc _ hWF1 _ hac
      obtain ⟨s, hs⟩ := (Cell.isStr_iff _).mp hstr
      obtain ⟨q, hq⟩ := hnum
      simp only [Bool.or_eq_true] at hpred
      rcases hpred with hk | ha
      · left
        refine ⟨s, hs, ?_⟩
        rw [hs] at hk
        unfold keepTitleCell at hk
        have hk' : (!(pyStrip s == "")) = true := hk
        intro he
        rw [he] at hk'
        simp at hk'
      · right
        refine ⟨q, hq, ?_⟩
        rw [hq] at ha
        unfold awcPos at ha
        simpa using ha
  · decide

/-- Witness for C5 at the spec's three-row example. -/
theorem claim_C5_witness :
    (Table.mk ["title", "abstract", "year", "abstract_word_count"]
      [[Cell.str "", Cell.str "a b c", Cell.nan, Cell.num 3],
       [Cell.str "X", Cell.str "", Cell.nan, Cell.num 0]]).rows.length ≤
      (Table.mk ["title", "abstract"]
        [[Cell.str "", Cell.str "a b c"], [Cell.str "X", Cell.str ""],
         [Cell.str "", Cell.str ""]]).rows.length ∧
    ∀ p ∈ ((Table.mk ["title", "abstract", "year", "abstract_word_count"]
        [[Cell.str "", Cell.str "a b c", Cell.nan, Cell.num 3],
         [Cell.str "X", Cell.str "", Cell.nan, Cell.num 0]]).getCol "title").zip
       ((Table.mk ["title", "abstract", "year", "abstract_word_count"]
        [[Cell.str "", Cell.str "a b c", Cell.nan, Cell.num 3],
         [Cell.str "X", Cell.str "", Cell.nan, Cell.num 0]]).getCol
         "abstract_word_count"),
      (∃ s, p.1 = Cell.str s ∧ pyStrip s ≠ "") ∨
      (∃ q : ℚ, p.2 = Cell.num q ∧ 0 < q) :=
  claim_C5_clean_data.1
    ⟨["title", "abstract"],
     [[Cell.str "", Cell.str "a b c"], [Cell.str "X", Cell.str ""],
      [Cell.str "", Cell.str ""]]⟩ _ (by decide) (by decide)

/-! #### Counter lemmas -/

theorem bump_keys {α : Type} [DecidableEq α] (k : α) (acc : List (α × Nat)) :
    (bump k acc).map Prod.fst =
      if k ∈ acc.map Prod.fst then acc.map Prod.fst else acc.map Prod.fst ++ [k] := by
  induction acc with
  | nil => simp [bump]
  | cons p rest ih =>
    obtain ⟨a, n⟩ := p
    by_cases hak : a = k
    · subst hak
      simp [bump]
    · simp only [bump, if_neg hak, List.map_cons, ih]
      by_cases hk : k ∈ rest.map Prod.fst
      · simp [hk, hak, Ne.symm hak]
      · simp only [hk, if_false]
        have : ¬ (k = a ∨ k ∈ rest.map Prod.fst) := by
          rintro (rfl | hm)
          · exact hak rfl
          · exact hk hm
        simp only [List.mem_cons, this, if_false]
        simp

theorem bump_mem_keys {α : Type} [DecidableEq α] (k a : α) (acc : List (α × Nat)) :
    a ∈ (bump k acc).map Prod.fst ↔ a ∈ acc.map Prod.fst ∨ a = k := by
  rw [bump_keys]
  by_cases hk : k ∈ acc.map Prod.fst
  · rw [if_pos hk]
    constructor
    · exact Or.inl
    · rintro (h | rfl)
      · exact h
      · exact hk
  · rw [if_neg hk]
    simp

theorem bump_keys_nodup {α : Type} [DecidableEq α] (k : α) (acc : List (α × Nat))
    (h : (acc.map Prod.fst).Nodup) : ((bump k acc).map Prod.fst).Nodup := by
  rw [bump_keys]
  by_cases hk : k ∈ acc.map Prod.fst
  · rwa [if_pos hk]
  · rw [if_neg hk]
    simp [List.nodup_append, h, hk]

theorem bump_mem_elim {α : Type} [DecidableEq α] (k : α) (acc : List (α × Nat))
    (hnd : (acc.map Prod.fst).Nodup) (p : α × Nat) (hp : p ∈ bump k acc) :
    (p ∈ acc ∧ p.1 ≠ k) ∨ (∃ n, (k, n) ∈ acc ∧ p = (k, n + 1)) ∨
      (p = (k, 1) ∧ k ∉ acc.map Prod.fst) := by
  induction acc with
  | nil =>
    simp [bump] at hp
    subst hp
    exact Or.inr (Or.inr ⟨rfl, by simp⟩)
  | cons q rest ih =>
    obtain ⟨a, n⟩ := q
    have hnd' : (rest.map Prod.fst).Nodup := (List.nodup_cons.mp (by simpa using hnd)).2
    have hanotin : a ∉ rest.map Prod.fst := (List.nodup_cons.mp (by simpa using hnd)).1
    by_cases hak : a = k
    · subst hak
      simp only [bump, if_pos rfl] at hp
      rcases List.mem_cons.mp hp with rfl | hp'
      · exact Or.inr (Or.inl ⟨n, by simp⟩)
      · refine Or.inl ⟨by simp [hp'], ?_⟩
        intro e
        exact hanotin (e ▸ List.mem_map_of_mem Prod.fst hp')
    · simp only [bump, if_neg hak] at hp
      rcases List.mem_cons.mp hp with rfl | hp'
      · exact Or.inl ⟨by simp, hak⟩
      · rcases ih hnd' hp' with ⟨hm, hne⟩ | ⟨m, hm, rfl⟩ | ⟨rfl, hnm⟩
        · exact Or.inl ⟨by simp [hm], hne⟩
        · exact Or.inr (Or.inl ⟨m, by simp [hm], rfl⟩)
        · refine Or.inr (Or.inr ⟨rfl, ?_⟩)
          simp only [List.map_cons, List.mem_cons]
          rintro (e | hm)
          · exact hak e.symm
          · exact hnm hm

theorem bump_sum {α : Type} [DecidableEq α] (k : α) (acc : List (α × Nat)) :
    ((bump k acc).map Prod.snd).sum = (acc.map Prod.snd).sum + 1 := by
  induction acc with
  | nil => simp [bump]
  | cons q rest ih =>
    obtain ⟨a, n⟩ := q
    by_cases hak : a = k
    · subst hak
      simp [bump]
      omega
    · simp [bump, hak, ih]
      omega

theorem bump_counts {α : Type} [DecidableEq α] (k : α) (acc : List (α × Nat))
    (ws : List α) (hnd : (acc.map Prod.fst).Nodup)
    (hmem : ∀ a, a ∈ acc.map Prod.fst ↔ a ∈ ws)
    (h : ∀ p ∈ acc, p.2 = ws.count p.1) :
    ∀ p ∈ bump k acc, p.2 = (ws ++ [k]).count p.1 := by
  intro p hp
  rcases bump_mem_elim k acc hnd p hp with ⟨hm, hne⟩ | ⟨n, hm, rfl⟩ | ⟨rfl, hnm⟩
  · rw [h p hm]
    simp [List.count_append, List.count_singleton, hne]
  · have := h (k, n) hm
    simp only at this
    simp [List.count_append, this]
  · have : k ∉ ws := fun hw => hnm ((hmem k).mpr hw)
    simp [List.count_append, List.count_eq_zero_of_not_mem this]

theorem counter_fold_inv {α : Type} [DecidableEq α] :
    ∀ (l : List α) (acc : List (α × Nat)) (ws : List α),
      (acc.map Prod.fst).Nodup →
      (∀ a, a ∈ acc.map Prod.fst ↔ a ∈ ws) →
      (∀ p ∈ acc, p.2 = ws.count p.1) →
      ((acc.map Prod.snd).sum = ws.length) →
      (((l.foldl (fun acc k => bump k acc) acc).map Prod.fst).Nodup ∧
       (∀ a, a ∈ (l.foldl (fun acc k => bump k acc) acc).map Prod.fst ↔ a ∈ ws ++ l) ∧
       (∀ p ∈ l.foldl (fun acc k => bump k acc) acc, p.2 = (ws ++ l).count p.1) ∧
       (((l.foldl (fun acc k => bump k acc) acc).map Prod.snd).sum = (ws ++ l).length)) := by
  intro l
  induction l with
  | nil =>
    intro acc ws h1 h2 h3 h4
    exact ⟨h1, by simpa using h2, by simpa using h3, by simpa using h4⟩
  | cons k l ih =>
    intro acc ws h1 h2 h3 h4
    have step := ih (bump k acc) (ws ++ [k])
      (bump_keys_nodup k acc h1)
      (fun a => by
        rw [bump_mem_keys]
        simp [h2 a, or_comm])
      (bump_counts k acc ws h1 h2 h3)
      (by rw [bump_sum]; simp [h4])
    have hws : ws ++ [k] ++ l = ws ++ k :: l := by simp
    rw [hws] at step
    exact step

theorem counterKeys_nodup {α : Type} [DecidableEq α] (l : List α) :
    ((counterOf l).map Prod.fst).Nodup :=
  (counter_fold_inv l [] [] (by simp) (by simp) (by simp) (by simp)).1

theorem counterKeys_mem {α : Type} [DecidableEq α] (l : List α) (a : α) :
    a ∈ (counterOf l).map Prod.fst ↔ a ∈ l := by
  have := (counter_fold_inv l [] [] (by simp) (by simp) (by simp) (by simp)).2.1 a
  simpa using this

theorem counter_counts {α : Type} [DecidableEq α] (l : List α) :
    ∀ p ∈ counterOf l, p.2 = l.count p.1 := by
  have := (counter_fold_inv l [] [] (by simp) (by simp) (by simp) (by simp)).2.2.1
  simpa using this

theorem counter_sum {α : Type} [DecidableEq α] (l : List α) :
    ((counterOf l).map Prod.snd).sum = l.length := by
  have := (counter_fold_inv l [] [] (by simp) (by simp) (by simp) (by simp)).2.2.2
  simpa using this

theorem Table.getCol_length_of_mem (t : Table) (c : String) (hc : c ∈ t.cols) :
    (t.getCol c).length = t.rows.length := by
  obtain ⟨i, hi, _⟩ := idxOf?_some_of_mem t.cols c hc
  unfold Table.getCol
  rw [hi]
  simp

/-! #### Character facts for the tokenizer -/

theorem charOfNat_toNat {n : Nat} (h : n.isValidChar) : (Char.ofNat n).toNat = n := by
  rw [Char.ofNat, dif_pos h]
  rfl

theorem uint32_le_iff_toNat_le (a b : UInt32) : a ≤ b ↔ a.toNat ≤ b.toNat := by
  rw [UInt32.le_def, BitVec.le_def]
  rfl

theorem charIsLower_iff (c : Char) : c.isLower = true ↔ 97 ≤ c.toNat ∧ c.toNat ≤ 122 := by
  simp only [Char.isLower, ge_iff_le, Bool.and_eq_true, decide_eq_true_eq]
  rw [uint32_le_iff_toNat_le, uint32_le_iff_toNat_le]
  exact Iff.rfl

theorem charIsUpper_iff (c : Char) : c.isUpper = true ↔ 65 ≤ c.toNat ∧ c.toNat ≤ 90 := by
  simp only [Char.isUpper, ge_iff_le, Bool.and_eq_true, decide_eq_true_eq]
  rw [uint32_le_iff_toNat_le, uint32_le_iff_toNat_le]
  exact Iff.rfl

/-- The image of `Char.toLower` contains no basic-latin upper-case
letter: an alphabetic character in a lowered string is lower case. -/
theorem toLower_isLower_of_isAlpha (c : Char) :
    (Char.toLower c).isAlpha = true → (Char.toLower c).isLower = true := by
  intro h
  unfold Char.toLower at *
  by_cases hu : c.toNat ≥ 65 ∧ c.toNat ≤ 90
  · rw [if_pos hu] at h ⊢
    have hv : Nat.isValidChar (c.toNat + 32) := Or.inl (by omega)
    rw [charIsLower_iff, charOfNat_toNat hv]
    omega
  · rw [if_neg hu] at h ⊢
    simp only [Char.isAlpha, Bool.or_eq_true] at h
    rcases h with hup | hl
    · rw [charIsUpper_iff] at hup
      exact absurd ⟨hup.1, hup.2⟩ hu
    · exact hl

/-- Every character of every run of `runsBy p` comes from the input. -/
theorem runsBy_mem (p : Char → Bool) :
    ∀ (l : List Char), ∀ run ∈ runsBy p l, ∀ c ∈ run, c ∈ l := by
  intro l
  induction l with
  | nil => intro run h; simp [runsBy] at h
  | cons c rest ih =>
    intro run hrun x hx
    simp only [runsBy] at hrun
    by_cases hc : p c = true
    · simp only [hc, if_true] at hrun
      cases rest with
      | nil =>
        simp at hrun
        subst hrun; simp at hx; simp [hx]
      | cons d tl =>
        by_cases hd : p d = true
        · simp only [hd, if_true] at hrun
          cases hr : runsBy p (d :: tl) with
          | nil =>
            rw [hr] at hrun; simp at hrun
            subst hrun; simp at hx; simp [hx]
          | cons run0 rs =>
            rw [hr] at hrun; simp at hrun
            rcases hrun with h1 | h2
            · subst h1
              rcases List.mem_cons.mp hx with h | h
              · simp [h]
              · exact List.mem_cons_of_mem _ (ih run0 (by rw [hr]; simp) x h)
            · exact List.mem_cons_of_mem _ (ih run (by rw [hr]; simp [h2]) x hx)
        · simp only [hd, if_false] at hrun
          rcases List.mem_cons.mp hrun with h | h
          · subst h; simp at hx; simp [hx]
          · exact List.mem_cons_of_mem _ (ih run h x hx)
    · simp only [hc, if_false] at hrun
      exact List.mem_cons_of_mem _ (ih run hrun x hx)

/-! ### Claim theorems -/

/-- C8: for every input table and every `top_n`, every `(word, count)` pair
returned by `title_word_frequency` has a word that is lowercase, purely
alphabetic, of length at least 2, and not in the fixed stopword set, and
the number of returned pairs is at most `top_n`. -/
theorem claim_C8_title_word_frequency (t : Table) (top_n : Nat) :
    (title_word_frequency t top_n).length ≤ top_n ∧
    ∀ p ∈ title_word_frequency t top_n,
      p.1 ∉ STOPWORDS ∧ 2 ≤ p.1.length ∧
      ∀ ch ∈ p.1.data, ch.isAlpha = true ∧ ch.isLower = true := by
  constructor
  · unfold title_word_frequency mostCommon
    exact List.length_take_le _ _
  · intro p hp
    unfold title_word_frequency mostCommon sortByCountDesc at hp
    have hp1 := List.mem_of_mem_take hp
    rw [List.mem_insertionSort] at hp1
    have hkey := List.mem_map_of_mem Prod.fst hp1
    rw [counterKeys_mem] at hkey
    rw [List.mem_flatten] at hkey
    obtain ⟨lsub, hlsub, hw⟩ := hkey
    rw [List.mem_map] at hlsub
    obtain ⟨s, hs, rfl⟩ := hlsub
    rw [List.mem_filter] at hw
    obtain ⟨htok, hstop⟩ := hw
    have hnstop : p.1 ∉ STOPWORDS := by
      intro hmem
      have hc : STOPWORDS.contains p.1 = true := by
        simpa using List.elem_iff.mpr hmem
      rw [hc] at hstop
      cases hstop
    unfold alphaTokens at htok
    rw [List.mem_map] at htok
    obtain ⟨run, hrun, hmk⟩ := htok
    rw [List.mem_filter] at hrun
    refine ⟨hnstop, ?_, ?_⟩
    · rw [← hmk]
      show 2 ≤ run.length
      simpa using hrun.2
    · intro ch hch
      rw [← hmk] at hch
      have hchr : ch ∈ run := by simpa using hch
      have halpha : ch.isAlpha = true :=
        runsBy_chars (fun c => c.isAlpha) s.data run hrun.1 ch hchr
      refine ⟨halpha, ?_⟩
      -- the char comes from a lowered text
      have hchs : ch ∈ s.data :=
        runsBy_mem (fun c => c.isAlpha) s.data run hrun.1 ch hchr
      -- identify the text as an output of pyLower
      have hlower : ∃ s0, s = pyLower s0 := by
        by_cases ht : "title" ∈ t.cols
        · simp only [ht, if_true] at hs
          rw [List.mem_filterMap] at hs
          obtain ⟨c, _, hc⟩ := hs
          by_cases hna : c.isna = true
          · rw [if_pos hna] at hc; cases hc
          · rw [if_neg hna] at hc
            exact ⟨Cell.toStr c, by cases hc; rfl⟩
        · simp only [ht, if_false] at hs
          simp at hs
      obtain ⟨s0, rfl⟩ := hlower
      unfold pyLower at hchs
      have hchm : ch ∈ s0.data.map Char.toLower := by simpa using hchs
      rw [List.mem_map] at hchm
      obtain ⟨c0, _, hc0⟩ := hchm
      rw [← hc0]
      exact toLower_isLower_of_isAlpha c0 (hc0 ▸ halpha)

/-- Witness for C8 at a concrete table and member. -/
theorem claim_C8_witness :
    (title_word_frequency ⟨["title"], [[Cell.str "The COVID Study"]]⟩ 5).length ≤ 5 ∧
      (("covid", 1) : String × Nat).1 ∉ STOPWORDS ∧
      2 ≤ (("covid", 1) : String × Nat).1.length ∧
      ∀ ch ∈ (("covid", 1) : String × Nat).1.data, ch.isAlpha = true ∧ ch.isLower = true := by
  have h := claim_C8_title_word_frequency ⟨["title"], [[Cell.str "The COVID Study"]]⟩ 5
  exact ⟨h.1, h.2 ("covid", 1) (by decide)⟩

/-- C9: `source_counts` resolves its column by the first match in the
priority order `source_x`, `source`, `publish_year`; maps missing values
to the label `"Unknown"`; and returns the full distribution of counts
(one entry per distinct value, no truncation) ordered by count
descending, returning an empty result when no candidate column exists. -/
theorem claim_C9_source_counts (t : Table) :
    (("source_x" ∉ t.cols ∧ "source" ∉ t.cols ∧ "publish_year" ∉ t.cols) →
       source_counts t = []) ∧
    (∀ c : Cell, c.isna = true → fillUnknown c = Cell.str "Unknown") ∧
    (∀ col, firstPresent ["source_x", "source", "publish_year"] t.cols = some col →
      col = (if "source_x" ∈ t.cols then "source_x"
             else if "source" ∈ t.cols then "source" else "publish_year") ∧
      ((source_counts t).map Prod.fst).Nodup ∧
      (∀ v, v ∈ (source_counts t).map Prod.fst ↔ v ∈ (t.getCol col).map fillUnknown) ∧
      (∀ p ∈ source_counts t, p.2 = ((t.getCol col).map fillUnknown).count p.1) ∧
      List.Sorted (fun p q : Cell × Nat => q.2 ≤ p.2) (source_counts t)) := by
  refine ⟨?_, ?_, ?_⟩
  · rintro ⟨h1, h2, h3⟩
    unfold source_counts firstPresent
    simp [List.find?, h1, h2, h3]
  · intro c hc
    unfold fillUnknown
    rw [if_pos hc]
  · intro col hcol
    have hperm : List.Perm (source_counts t) (counterOf ((t.getCol col).map fillUnknown)) := by
      unfold source_counts
      rw [hcol]
      unfold value_counts sortByCountDesc
      exact List.perm_insertionSort _ _
    have hsorted : List.Sorted (fun p q : Cell × Nat => q.2 ≤ p.2) (source_counts t) := by
      unfold source_counts
      rw [hcol]
      unfold value_counts sortByCountDesc
      haveI : IsTotal (Cell × Nat) (fun p q => q.2 ≤ p.2) := ⟨fun a b => le_total b.2 a.2⟩
      haveI : IsTrans (Cell × Nat) (fun p q => q.2 ≤ p.2) :=
        ⟨fun _ _ _ h1 h2 => le_trans h2 h1⟩
      exact List.sorted_insertionSort _ _
    refine ⟨?_, ?_, ?_, ?_, hsorted⟩
    · unfold firstPresent at hcol
      by_cases h1 : "source_x" ∈ t.cols
      · simp [List.find?, h1] at hcol ⊢
        exact hcol.symm
      · by_cases h2 : "source" ∈ t.cols
        · simp [List.find?, h1, h2] at hcol ⊢
          exact hcol.symm
        · by_cases h3 : "publish_year" ∈ t.cols
          · simp [List.find?, h1, h2, h3] at hcol ⊢
            exact hcol.symm
          · simp [List.find?, h1, h2, h3] at hcol
    · rw [(hperm.map Prod.fst).nodup_iff]
      exact counterKeys_nodup _
    · intro v
      rw [(hperm.map Prod.fst).mem_iff]
      exact counterKeys_mem _ v
    · intro p hp
      exact counter_counts _ p (hperm.mem_iff.mp hp)

/-- Witness for C9 at a concrete table. -/
theorem claim_C9_witness :
    (source_counts ⟨["x"], [[Cell.nan]]⟩ = []) ∧
    fillUnknown Cell.nan = Cell.str "Unknown" ∧
    ("source" =
      (if "source_x" ∈ (Table.mk ["source"] [[Cell.str "PMC"], [Cell.nan]]).cols
       then "source_x"
       else if "source" ∈ (Table.mk ["source"] [[Cell.str "PMC"], [Cell.nan]]).cols
       then "source" else "publish_year")) := by
  have h1 := (claim_C9_source_counts ⟨["x"], [[Cell.nan]]⟩).1 (by decide)
  have h2 := (claim_C9_source_counts ⟨["x"], [[Cell.nan]]⟩).2.1 Cell.nan (by decide)
  have h3 := ((claim_C9_source_counts ⟨["source"], [[Cell.str "PMC"], [Cell.nan]]⟩).2.2
    "source" (by decide)).1
  exact ⟨h1, h2, h3⟩

/-- C7: `publications_by_year` returns counts keyed by strictly increasing
year values, the counts sum to the number of input rows with a non-missing
year, and the result is empty when the `year` column is absent. -/
theorem claim_C7_publications_by_year (t : Table) :
    ("year" ∉ t.cols → publications_by_year t = .ok []) ∧
    (∀ l, publications_by_year t = .ok l →
      List.Chain' (fun a b : Int × Nat => a.1 < b.1) l ∧
      (l.map Prod.snd).sum = ((t.getCol "year").filter (fun c => !c.isna)).length) := by
  constructor
  · intro h
    unfold publications_by_year
    rw [if_neg h]
    rfl
  · intro l h
    unfold publications_by_year at h
    by_cases hy : "year" ∈ t.cols
    · rw [if_pos hy] at h
      simp only [bind, Except.bind] at h
      split at h
      · exact absurd h (by simp)
      · next ys hm =>
        simp only [pure, Except.pure, Except.ok.injEq] at h
        subst h
        have hperm : List.Perm
            (List.insertionSort (fun p q : Int × Nat => p.1 ≤ q.1) (counterOf ys))
            (counterOf ys) := List.perm_insertionSort _ _
        constructor
        · haveI : IsTotal (Int × Nat) (fun p q : Int × Nat => p.1 ≤ q.1) :=
            ⟨fun a b => le_total a.1 b.1⟩
          haveI : IsTrans (Int × Nat) (fun p q : Int × Nat => p.1 ≤ q.1) :=
            ⟨fun _ _ _ h1 h2 => le_trans h1 h2⟩
          have hs : List.Sorted (fun p q : Int × Nat => p.1 ≤ q.1)
              (List.insertionSort (fun p q : Int × Nat => p.1 ≤ q.1) (counterOf ys)) :=
            List.sorted_insertionSort _ _
          have hnd : ((List.insertionSort (fun p q : Int × Nat => p.1 ≤ q.1)
              (counterOf ys)).map Prod.fst).Nodup := by
            rw [(hperm.map Prod.fst).nodup_iff]
            exact counterKeys_nodup _
          unfold List.Nodup at hnd
          rw [List.pairwise_map] at hnd
          have hlt := (List.Pairwise.and hs hnd).imp
            (fun {a b} hab => lt_of_le_of_ne hab.1 hab.2)
          exact List.Pairwise.chain' hlt
        · have h1 : ((List.insertionSort (fun p q : Int × Nat => p.1 ≤ q.1)
              (counterOf ys)).map Prod.snd).sum = ((counterOf ys).map Prod.snd).sum :=
            (hperm.map Prod.snd).sum_eq
          rw [h1, counter_sum]
          exact mapME_ok_length _ _ _ hm
    · rw [if_neg hy] at h
      simp only [pure, Except.pure, Except.ok.injEq] at h
      subst h
      constructor
      · exact List.chain'_nil
      · rw [Table.getCol_eq_nil t "year" hy]
        simp

/-- Witness for C7 at a concrete table. -/
theorem claim_C7_witness :
    publications_by_year ⟨["x"], [[Cell.nan]]⟩ = .ok [] ∧
    (List.Chain' (fun a b : Int × Nat => a.1 < b.1) [((2019 : Int), 1), ((2020 : Int), 2)] ∧
     ([((2019 : Int), 1), ((2020 : Int), 2)].map Prod.snd).sum =
       (((Table.mk ["year"] [[Cell.num 2020], [Cell.nan], [Cell.num 2019], [Cell.num 2020]]).getCol
          "year").filter (fun c => !c.isna)).length) := by
  refine ⟨(claim_C7_publications_by_year ⟨["x"], [[Cell.nan]]⟩).1 (by decide), ?_⟩
  exact (claim_C7_publications_by_year
    ⟨["year"], [[Cell.num 2020], [Cell.nan], [Cell.num 2019], [Cell.num 2020]]⟩).2
    [((2019 : Int), 1), ((2020 : Int), 2)] (by decide)

/-- C2: the cases-over-time aggregation fails with the spec's
`InvalidInputError` (a `ValueError` in the source) exactly when the given
table lacks a `Year` column or lacks a `cases_median` column; when both
are present it succeeds and returns one aggregated value per distinct
non-missing year, ordered by year ascending. -/
theorem claim_C2_cases_over_time (t : Table) (agg : String) :
    ((¬ ("Year" ∈ t.cols ∧ "cases_median" ∈ t.cols)) ↔
      plot_cases_over_time t agg =
        .error (.invalidInput "DataFrame must contain Year and cases_median columns")) ∧
    (∀ l, plot_cases_over_time t agg = .ok l →
      ((l.map Prod.fst).Nodup ∧
       List.Sorted cellLe (l.map Prod.fst) ∧
       (∀ c : Cell, c ∈ l.map Prod.fst ↔ (c ∈ t.getCol "Year" ∧ c.isna = false)))) := by
  constructor
  · constructor
    · intro h
      unfold plot_cases_over_time
      rw [if_neg h]
    · intro h
      intro hcontra
      unfold plot_cases_over_time at h
      rw [if_pos hcontra] at h
      exact absurd h (by simp)
  · intro l h
    unfold plot_cases_over_time at h
    by_cases hc : "Year" ∈ t.cols ∧ "cases_median" ∈ t.cols
    · rw [if_pos hc] at h
      simp only [Except.ok.injEq] at h
      subst h
      have hfst : ∀ (ks : List Cell) (f : Cell → Cell × Cell),
          (∀ k, (f k).1 = k) → (ks.map f).map Prod.fst = ks := by
        intro ks f hf
        rw [List.map_map]
        exact listMap_eq_self ks _ (fun k _ => hf k)
      rw [hfst _ _ (fun k => rfl)]
      have hperm := List.perm_insertionSort cellLe
        (distinctKeys ((((t.getCol "Year").zip (t.getCol "cases_median")).map
          Prod.fst).filter (fun c => !c.isna)))
      have hzip : ((t.getCol "Year").zip (t.getCol "cases_median")).map Prod.fst =
          t.getCol "Year" := by
        apply List.map_fst_zip
        rw [Table.getCol_length_of_mem t _ hc.1, Table.getCol_length_of_mem t _ hc.2]
      refine ⟨?_, ?_, ?_⟩
      · rw [hperm.nodup_iff]
        exact counterKeys_nodup _
      · exact List.sorted_insertionSort cellLe _
      · intro c
        rw [hperm.mem_iff]
        unfold distinctKeys
        rw [counterKeys_mem, List.mem_filter, hzip]
        constructor
        · rintro ⟨h1, h2⟩
          exact ⟨h1, by simpa using h2⟩
        · rintro ⟨h1, h2⟩
          exact ⟨h1, by simp [h2]⟩
    · rw [if_neg hc] at h
      exact absurd h (by simp)

/-- Witness for C2: a table missing `cases_median` raises, and a complete
table yields a sorted, duplicate-free series covering its years. -/
theorem claim_C2_witness :
    (plot_cases_over_time ⟨["Year"], [[Cell.num 2020]]⟩ "sum" =
      .error (.invalidInput "DataFrame must contain Year and cases_median columns")) ∧
    (([(Cell.num 2019, Cell.num 7), (Cell.num 2020, Cell.num 6)].map Prod.fst).Nodup ∧
     List.Sorted cellLe
       ([(Cell.num 2019, Cell.num 7), (Cell.num 2020, Cell.num 6)].map Prod.fst) ∧
     (∀ c : Cell,
        c ∈ [(Cell.num 2019, Cell.num 7), (Cell.num 2020, Cell.num 6)].map Prod.fst ↔
        (c ∈ (Table.mk ["Year", "cases_median"]
            [[Cell.num 2020, Cell.num 5], [Cell.num 2019, Cell.num 7],
             [Cell.num 2020, Cell.num 1]]).getCol "Year" ∧ c.isna = false))) := by
  refine ⟨(claim_C2_cases_over_time ⟨["Year"], [[Cell.num 2020]]⟩ "sum").1.mp
    (by decide), ?_⟩
  exact (claim_C2_cases_over_time
    ⟨["Year", "cases_median"],
     [[Cell.num 2020, Cell.num 5], [Cell.num 2019, Cell.num 7],
      [Cell.num 2020, Cell.num 1]]⟩ "sum").2
    [(Cell.num 2019, Cell.num 7), (Cell.num 2020, Cell.num 6)] (by decide)

/-- C1 (code bug): at the spec's two-row example `clean_estimated` keeps
BOTH rows.  The object-column pass `astype(str).str.strip()` (line 39 of
`estimated_analysis.py`) turns the missing Country of row 2 into the
literal string `"None"`, so the `notna` filter of line 74 cannot drop it,
contradicting the function's own docstring "drop rows without `Country`
or `Year`".  The Year half of the filter does work: a missing Year is
re-coerced to `NA` by `pd.to_numeric` and its row is dropped. -/
theorem claim_C1_failing_input_eval :
    (clean_estimated
      ⟨["Country", "Year", "No. of cases_median"],
       [[Cell.str "A", Cell.str "2020", Cell.str "10"],
        [Cell.pynone, Cell.str "2020", Cell.str "5"]]⟩ =
    .ok ⟨["Country", "Year", "cases_median", "deaths_median"],
         [[Cell.str "A", Cell.num 2020, Cell.num 10, Cell.na],
          [Cell.str "None", Cell.num 2020, Cell.num 5, Cell.na]]⟩) ∧
    (clean_estimated
      ⟨["Country", "Year", "No. of cases_median"],
       [[Cell.str "A", Cell.str "2020", Cell.str "10"],
        [Cell.str "B", Cell.pynone, Cell.str "5"]]⟩ =
    .ok ⟨["Country", "Year", "cases_median", "deaths_median"],
         [[Cell.str "A", Cell.num 2020, Cell.num 10, Cell.na]]⟩) := by decide

/-! #### Stage lemmas for clean_estimated -/

theorem ceStripCols_WF (t : Table) (hWF : t.WF) (hnd : (ceStripCols t).cols.Nodup) :
    (ceStripCols t).WF := by
  refine ⟨hnd, ?_⟩
  intro r hr
  show r.length = (t.cols.map pyStrip).length
  rw [List.length_map]
  exact hWF.2 r hr

theorem ceYear_ok_facts (t u : Table) (hWF : t.WF) (h : ceYear t = .ok u) :
    u.cols = t.cols ∧ u.WF ∧ ∀ c, c ≠ "Year" → u.getCol c = t.getCol c := by
  unfold ceYear at h
  split_ifs at h with hy
  · exact ⟨Table.mapColE_cols _ _ _ _ h, Table.WF_mapColE _ _ _ _ h hWF,
      fun c hc => Table.getCol_mapColE_other _ _ _ _ _ hc h⟩
  · cases h
    exact ⟨rfl, hWF, fun _ _ => rfl⟩

theorem Table.mapColE_ok_of_forall (t : Table) (c : String)
    (f : Cell → Except DFError Cell)
    (h : ∀ x ∈ t.getCol c, ∃ v, f x = .ok v) :
    ∃ u, t.mapColE c f = .ok u := by
  unfold Table.mapColE
  cases hi : idxOf? t.cols c with
  | none => exact ⟨t, rfl⟩
  | some i =>
    have hrows : ∀ r ∈ t.rows, ∃ r', (do
        let v ← f (r.getD i Cell.nan)
        pure (r.set i v) : Except DFError (List Cell)) = Except.ok r' := by
      intro r hr
      have hx : r.getD i Cell.nan ∈ t.getCol c := by
        unfold Table.getCol
        rw [hi]
        exact List.mem_map_of_mem _ hr
      obtain ⟨v, hv⟩ := h _ hx
      exact ⟨r.set i v, by simp only [bind, Except.bind, hv, pure, Except.pure]⟩
    obtain ⟨rows', hrows'⟩ := mapME_ok_of_forall (fun r => do
        let v ← f (r.getD i Cell.nan)
        pure (r.set i v)) t.rows hrows
    refine ⟨⟨t.cols, rows'⟩, ?_⟩
    show (do
        let rows ← mapME (fun r => do
          let v ← f (r.getD i Cell.nan)
          pure (r.set i v)) t.rows
        pure (⟨t.cols, rows⟩ : Table)) = Except.ok ⟨t.cols, rows'⟩
    rw [hrows']
    rfl

theorem ceYear_ok_exists (t : Table)
    (h : ∀ x ∈ t.getCol "Year", ∃ v, yearCell x = .ok v) :
    ∃ u, ceYear t = .ok u := by
  unfold ceYear
  split_ifs with hy
  · exact Table.mapColE_ok_of_forall t "Year" yearCell h
  · exact ⟨t, rfl⟩

theorem ceM1_WF (t : Table) (h : t.WF) : (ceM1 t).WF := by
  unfold ceM1
  split_ifs with h1
  · exact Table.WF_deriveCol _ _ _ _ h
  · exact Table.WF_setColConst _ _ _ h

theorem ceM1_mem (t : Table) (c : String) :
    c ∈ (ceM1 t).cols ↔ c ∈ t.cols ∨ c = "cases_median" := by
  unfold ceM1
  split_ifs with h1
  · rw [Table.deriveCol_cols, mem_cols_set_or_append]
  · rw [Table.setColConst_cols, mem_cols_set_or_append]

theorem ceM1_getCol_other (t : Table) (c : String) (hWF : t.WF)
    (hne : c ≠ "cases_median") : (ceM1 t).getCol c = t.getCol c := by
  unfold ceM1
  split_ifs with h1
  · exact Table.getCol_deriveCol_other _ _ _ _ _ hWF hne
  · exact Table.getCol_setColConst_other _ _ _ _ hWF hne

theorem ceMedians_WF (t : Table) (h : t.WF) : (ceMedians t).WF := by
  unfold ceMedians
  split_ifs with h1
  · exact Table.WF_deriveCol _ _ _ _ (ceM1_WF t h)
  · exact Table.WF_setColConst _ _ _ (ceM1_WF t h)

theorem ceMedians_mem (t : Table) (c : String) :
    c ∈ (ceMedians t).cols ↔ (c ∈ t.cols ∨ c = "cases_median") ∨ c = "deaths_median" := by
  unfold ceMedians
  split_ifs with h1
  · rw [Table.deriveCol_cols, mem_cols_set_or_append, ceM1_mem]
  · rw [Table.setColConst_cols, mem_cols_set_or_append, ceM1_mem]

theorem ceMedians_getCol_other (t : Table) (c : String) (hWF : t.WF)
    (h1 : c ≠ "cases_median") (h2 : c ≠ "deaths_median") :
    (ceMedians t).getCol c = t.getCol c := by
  unfold ceMedians
  split_ifs with hd
  · rw [Table.getCol_deriveCol_other _ _ _ _ _ (ceM1_WF t hWF) h2]
    exact ceM1_getCol_other t c hWF h1
  · rw [Table.getCol_setColConst_other _ _ _ _ (ceM1_WF t hWF) h2]
    exact ceM1_getCol_other t c hWF h1

theorem ceProject_cols_mem (t : Table) (c : String) :
    c ∈ (ceProject t).cols ↔
      c ∈ (["Country", "Year", "cases_median", "deaths_median", "WHO Region"] :
        List String) ∧ c ∈ t.cols := by
  unfold ceProject
  rw [Table.select_cols, List.mem_filter]
  simp

theorem ceProject_getCol (t : Table) (c : String)
    (hk : c ∈ (["Country", "Year", "cases_median", "deaths_median", "WHO Region"] :
      List String))
    (hct : c ∈ t.cols) : (ceProject t).getCol c = t.getCol c := by
  unfold ceProject
  exact Table.getCol_select _ _ _ (List.mem_filter.mpr ⟨hk, by simp [hct]⟩) hct

theorem ceFilter_ok_exists (t : Table) (hc : "Country" ∈ t.cols) :
    ∃ r, ceFilter t = .ok r := by
  obtain ⟨ic, hic, _⟩ := idxOf?_some_of_mem t.cols "Country" hc
  unfold ceFilter
  rw [hic]
  cases hy : idxOf? t.cols "Year" <;> exact ⟨_, rfl⟩

theorem ceFilter_ok_cols (t r : Table) (h : ceFilter t = .ok r) : r.cols = t.cols := by
  unfold ceFilter at h
  cases hic : idxOf? t.cols "Country" with
  | none =>
    rw [hic] at h
    exact absurd h (by simp)
  | some ic =>
    rw [hic] at h
    cases hy : idxOf? t.cols "Year" with
    | some iy =>
      rw [hy] at h
      cases h
      rfl
    | none =>
      rw [hy] at h
      cases h
      rfl

theorem ceFilter_getCol_subset (t r : Table) (h : ceFilter t = .ok r) (c : String) :
    ∀ x ∈ r.getCol c, x ∈ t.getCol c := by
  unfold ceFilter at h
  cases hic : idxOf? t.cols "Country" with
  | none =>
    rw [hic] at h
    exact absurd h (by simp)
  | some ic =>
    rw [hic] at h
    cases hy : idxOf? t.cols "Year" with
    | some iy =>
      rw [hy] at h
      cases h
      intro x hx
      exact Table.getCol_filterRows_subset _ _ _ _
        (Table.getCol_filterRows_subset _ _ _ _ hx)
    | none =>
      rw [hy] at h
      cases h
      intro x hx
      exact Table.getCol_filterRows_subset _ _ _ _ hx

theorem clean_estimated_ok (t r : Table) (h : clean_estimated t = .ok r) :
    ∃ t2, ceYear (Table.stripObjects (ceStripCols t)) = .ok t2 ∧
      ceFilter (ceProject (ceMedians t2)) = .ok r := by
  unfold clean_estimated at h
  simp only [bind, Except.bind] at h
  split at h
  · exact absurd h (by simp)
  · next t2 h2 => exact ⟨t2, h2, h⟩

theorem clean_estimated_eq_of (t t2 : Table) (e : Except DFError Table)
    (h2 : ceYear (Table.stripObjects (ceStripCols t)) = .ok t2)
    (hf : ceFilter (ceProject (ceMedians t2)) = e) :
    clean_estimated t = e := by
  unfold clean_estimated
  simp only [bind, Except.bind, h2]
  exact hf

theorem ceYear_ok_cols (t u : Table) (h : ceYear t = .ok u) : u.cols = t.cols := by
  unfold ceYear at h
  split_ifs at h with hy
  · exact Table.mapColE_cols _ _ _ _ h
  · cases h
    rfl

theorem ceFilter_err (t : Table) (hc : "Country" ∉ t.cols) :
    ceFilter t = .error (.keyError "Country") := by
  unfold ceFilter
  rw [(idxOf?_eq_none_iff _ _).mpr hc]

/-- C10: when the text columns of the (name-stripped) input table have
`object` dtype, `clean_estimated` passes every one of their values
through `astype(str)` before stripping, so in the cleaned output the
text columns `Country` and `WHO Region` contain only strings and hold
no missing value: originally-missing entries have become literal
strings rather than remaining null. -/
theorem claim_C10_strip_objects (t r : Table) (hWF : t.WF)
    (hnd : (ceStripCols t).cols.Nodup)
    (hok : clean_estimated t = .ok r)
    (hobjC : isObjectDtype ((ceStripCols t).getCol "Country") = true)
    (hobjW : "WHO Region" ∈ (ceStripCols t).cols →
      isObjectDtype ((ceStripCols t).getCol "WHO Region") = true) :
    (∀ x ∈ r.getCol "Country", x.isStr = true ∧ x.isna = false) ∧
    (∀ x ∈ r.getCol "WHO Region", x.isStr = true ∧ x.isna = false) := by
  obtain ⟨t2, hY, hF⟩ := clean_estimated_ok t r hok
  have hWF0 : (ceStripCols t).WF := ceStripCols_WF t hWF hnd
  have hWF1 : (Table.stripObjects (ceStripCols t)).WF := Table.WF_stripObjects _ hWF0
  obtain ⟨hcols2, hWF2, hother2⟩ := ceYear_ok_facts _ t2 hWF1 hY
  have hC : "Country" ∈ (ceStripCols t).cols := by
    by_contra hc
    rw [Table.getCol_eq_nil _ _ hc] at hobjC
    simp [isObjectDtype] at hobjC
  have hstrip : ∀ c : String, c ∈ (ceStripCols t).cols →
      isObjectDtype ((ceStripCols t).getCol c) = true →
      ∀ x ∈ (Table.stripObjects (ceStripCols t)).getCol c,
        x.isStr = true ∧ x.isna = false := by
    intro c hc hobj x hx
    rw [Table.getCol_stripObjects _ _ hWF0 hc, if_pos hobj, List.mem_map] at hx
    obtain ⟨y, _, rfl⟩ := hx
    exact ⟨rfl, rfl⟩
  have main : ∀ c : String, c ∈ (ceStripCols t).cols → c ≠ "Year" →
      c ∈ (["Country", "Year", "cases_median", "deaths_median", "WHO Region"] :
        List String) →
      c ≠ "cases_median" → c ≠ "deaths_median" →
      isObjectDtype ((ceStripCols t).getCol c) = true →
      ∀ x ∈ r.getCol c, x.isStr = true ∧ x.isna = false := by
    intro c hc hcY hck hcm1 hcm2 hobj x hx
    have hct2 : c ∈ t2.cols := by rw [hcols2]; exact hc
    have hcM : c ∈ (ceMedians t2).cols := (ceMedians_mem t2 c).mpr (Or.inl (Or.inl hct2))
    have hxP := ceFilter_getCol_subset _ _ hF c x hx
    rw [ceProject_getCol _ _ hck hcM, ceMedians_getCol_other _ _ hWF2 hcm1 hcm2,
      hother2 c hcY] at hxP
    exact hstrip c hc hobj x hxP
  constructor
  · exact main "Country" hC (by decide) (by decide) (by decide) (by decide) hobjC
  · by_cases hW : "WHO Region" ∈ (ceStripCols t).cols
    · exact main "WHO Region" hW (by decide) (by decide) (by decide) (by decide)
        (hobjW hW)
    · intro x hx
      have hWr : "WHO Region" ∉ r.cols := by
        rw [ceFilter_ok_cols _ _ hF]
        intro hmem
        obtain ⟨_, hmem2⟩ := (ceProject_cols_mem _ _).mp hmem
        rcases (ceMedians_mem _ _).mp hmem2 with (h5 | h5) | h5
        · rw [hcols2] at h5
          exact hW h5
        · exact absurd h5 (by decide)
        · exact absurd h5 (by decide)
      rw [Table.getCol_eq_nil _ _ hWr] at hx
      simp at hx

theorem claim_C10_witness :
    Table.WF ⟨["Country", "Year", "WHO Region"],
      [[Cell.str "A", Cell.str "2020", Cell.pynone]]⟩ ∧
    clean_estimated ⟨["Country", "Year", "WHO Region"],
      [[Cell.str "A", Cell.str "2020", Cell.pynone]]⟩ =
      .ok ⟨["Country", "Year", "cases_median", "deaths_median", "WHO Region"],
        [[Cell.str "A", Cell.num 2020, Cell.na, Cell.na, Cell.str "None"]]⟩ ∧
    ((∀ x ∈ (Table.mk ["Country", "Year", "cases_median", "deaths_median", "WHO Region"]
        [[Cell.str "A", Cell.num 2020, Cell.na, Cell.na, Cell.str "None"]]).getCol
          "Country", x.isStr = true ∧ x.isna = false) ∧
     (∀ x ∈ (Table.mk ["Country", "Year", "cases_median", "deaths_median", "WHO Region"]
        [[Cell.str "A", Cell.num 2020, Cell.na, Cell.na, Cell.str "None"]]).getCol
          "WHO Region", x.isStr = true ∧ x.isna = false)) :=
  ⟨by decide, by decide,
   claim_C10_strip_objects
     ⟨["Country", "Year", "WHO Region"],
      [[Cell.str "A", Cell.str "2020", Cell.pynone]]⟩
     ⟨["Country", "Year", "cases_median", "deaths_median", "WHO Region"],
      [[Cell.str "A", Cell.num 2020, Cell.na, Cell.na, Cell.str "None"]]⟩
     (by decide) (by decide) (by decide) (by decide) (by decide)⟩

/-- C4 counterexample: neither cleaner is total.  `clean_data` raises a
`KeyError` on `"title"` when the table has no `title` column (line 71 of
`data_analysis.py` indexes `df["title"]` unconditionally), and
`clean_estimated` raises a `KeyError` on `"Country"` when the table has
no `Country` column (line 74 of `estimated_analysis.py` indexes
`df["Country"]` unconditionally). -/
theorem claim_C4_counterexample :
    clean_data ⟨["abstract"], [[Cell.str "a b c"]]⟩ =
      .error (DFError.keyError "title") ∧
    clean_estimated ⟨["Year"], [[Cell.str "2020"]]⟩ =
      .error (DFError.keyError "Country") := by decide

/-- C4 (amended): `clean_data` succeeds exactly when the input has a
`title` column, and otherwise raises a `KeyError` on `"title"`;
`clean_estimated`, on inputs whose `Year` values convert (so that the
`astype("Int64")` cast of lines 53-55 does not raise first), succeeds
exactly when the stripped column names include `Country`, and otherwise
raises a `KeyError` on `"Country"`.  The cleaners do not tolerate those
missing columns. -/
theorem claim_C4_totality :
    (∀ t : Table,
      ("title" ∈ t.cols → ∃ out, clean_data t = .ok out) ∧
      ("title" ∉ t.cols → clean_data t = .error (.keyError "title"))) ∧
    (∀ t : Table,
      (∀ x ∈ (Table.stripObjects (ceStripCols t)).getCol "Year",
        ∃ v, yearCell x = .ok v) →
      ("Country" ∈ (ceStripCols t).cols → ∃ r, clean_estimated t = .ok r) ∧
      ("Country" ∉ (ceStripCols t).cols →
        clean_estimated t = .error (.keyError "Country"))) := by
  constructor
  · intro t
    constructor
    · intro ht
      have ht3 : "title" ∈ (cdStage3 (cdStage2 (cdStage1 t))).cols := by
        rw [cdStage3_cols]
        exact (cdStage2_mem _ _).mpr (Or.inl ((cdStage1_mem _ _).mpr (Or.inl ht)))
      have ha3 : "abstract_word_count" ∈ (cdStage3 (cdStage2 (cdStage1 t))).cols := by
        rw [cdStage3_cols]
        exact (cdStage2_mem _ _).mpr (Or.inr rfl)
      obtain ⟨it, hit, _⟩ := idxOf?_some_of_mem _ _ ht3
      obtain ⟨ia, hia, _⟩ := idxOf?_some_of_mem _ _ ha3
      refine ⟨(cdStage3 (cdStage2 (cdStage1 t))).filterRows (fun r =>
        keepTitleCell (r.getD it Cell.nan) || awcPos (r.getD ia Cell.nan)), ?_⟩
      show (match idxOf? (cdStage3 (cdStage2 (cdStage1 t))).cols "title",
          idxOf? (cdStage3 (cdStage2 (cdStage1 t))).cols "abstract_word_count" with
        | some it, some ia =>
          Except.ok ((cdStage3 (cdStage2 (cdStage1 t))).filterRows fun r =>
            keepTitleCell (r.getD it Cell.nan) || awcPos (r.getD ia Cell.nan))
        | _, _ => Except.error (DFError.keyError "title")) =
        Except.ok ((cdStage3 (cdStage2 (cdStage1 t))).filterRows (fun r =>
          keepTitleCell (r.getD it Cell.nan) || awcPos (r.getD ia Cell.nan)))
      rw [hit, hia]
    · intro ht
      have ht3 : "title" ∉ (cdStage3 (cdStage2 (cdStage1 t))).cols := by
        rw [cdStage3_cols]
        intro hmem
        rcases (cdStage2_mem _ _).mp hmem with h1 | h1
        · rcases (cdStage1_mem _ _).mp h1 with h2 | h2
          · exact ht h2
          · exact absurd h2 (by decide)
        · exact absurd h1 (by decide)
      have ha3 : "abstract_word_count" ∈ (cdStage3 (cdStage2 (cdStage1 t))).cols := by
        rw [cdStage3_cols]
        exact (cdStage2_mem _ _).mpr (Or.inr rfl)
      obtain ⟨ia, hia, _⟩ := idxOf?_some_of_mem _ _ ha3
      show (match idxOf? (cdStage3 (cdStage2 (cdStage1 t))).cols "title",
          idxOf? (cdStage3 (cdStage2 (cdStage1 t))).cols "abstract_word_count" with
        | some it, some ia =>
          Except.ok ((cdStage3 (cdStage2 (cdStage1 t))).filterRows fun r =>
            keepTitleCell (r.getD it Cell.nan) || awcPos (r.getD ia Cell.nan))
        | _, _ => Except.error (DFError.keyError "title")) =
        Except.error (DFError.keyError "title")
      rw [(idxOf?_eq_none_iff _ _).mpr ht3, hia]
  · intro t hyears
    obtain ⟨t2, hY⟩ := ceYear_ok_exists _ hyears
    have hcols2 := ceYear_ok_cols _ _ hY
    constructor
    · intro hC
      have hC2 : "Country" ∈ t2.cols := by rw [hcols2]; exact hC
      have hCM : "Country" ∈ (ceMedians t2).cols :=
        (ceMedians_mem _ _).mpr (Or.inl (Or.inl hC2))
      have hCP : "Country" ∈ (ceProject (ceMedians t2)).cols :=
        (ceProject_cols_mem _ _).mpr ⟨by decide, hCM⟩
      obtain ⟨r, hr⟩ := ceFilter_ok_exists _ hCP
      exact ⟨r, clean_estimated_eq_of t t2 _ hY hr⟩
    · intro hC
      have hC2 : "Country" ∉ t2.cols := by rw [hcols2]; exact hC
      have hCM : "Country" ∉ (ceMedians t2).cols := by
        intro hmem
        rcases (ceMedians_mem _ _).mp hmem with (h5 | h5) | h5
        · exact hC2 h5
        · exact absurd h5 (by decide)
        · exact absurd h5 (by decide)
      have hCP : "Country" ∉ (ceProject (ceMedians t2)).cols := by
        intro hmem
        exact hCM ((ceProject_cols_mem _ _).mp hmem).2
      exact clean_estimated_eq_of t t2 _ hY (ceFilter_err _ hCP)

theorem claim_C4_witness :
    (∃ out, clean_data ⟨["title"], [[Cell.str "x"]]⟩ = .ok out) ∧
    clean_data ⟨["abstract"], [[Cell.str "a"]]⟩ = .error (.keyError "title") ∧
    (∃ r, clean_estimated ⟨["Country"], [[Cell.str "A"]]⟩ = .ok r) ∧
    clean_estimated ⟨["X"], [[Cell.str "A"]]⟩ = .error (.keyError "Country") :=
  ⟨(claim_C4_totality.1 ⟨["title"], [[Cell.str "x"]]⟩).1 (by decide),
   (claim_C4_totality.1 ⟨["abstract"], [[Cell.str "a"]]⟩).2 (by decide),
   (claim_C4_totality.2 ⟨["Country"], [[Cell.str "A"]]⟩
     (fun x hx => absurd (show x ∈ ([] : List Cell) from hx)
       (List.not_mem_nil x))).1 (by decide),
   (claim_C4_totality.2 ⟨["X"], [[Cell.str "A"]]⟩
     (fun x hx => absurd (show x ∈ ([] : List Cell) from hx)
       (List.not_mem_nil x))).2 (by decide)⟩

/-! #### Zipped-column transport and idempotence helpers -/

theorem Table.zip_getCol_eq (t : Table) (c c' : String) (i i' : Nat)
    (hi : idxOf? t.cols c = some i) (hi' : idxOf? t.cols c' = some i') :
    (t.getCol c).zip (t.getCol c') =
      t.rows.map (fun r => (r.getD i Cell.nan, r.getD i' Cell.nan)) := by
  unfold Table.getCol
  rw [hi, hi', List.zip_map']

theorem Table.zip_getCol_filterRows_subset (t : Table) (p : List Cell → Bool)
    (c c' : String) (x : Cell × Cell)
    (hx : x ∈ ((t.filterRows p).getCol c).zip ((t.filterRows p).getCol c')) :
    x ∈ (t.getCol c).zip (t.getCol c') := by
  by_cases hc : c ∈ t.cols
  · by_cases hc' : c' ∈ t.cols
    · obtain ⟨i, hi, _⟩ := idxOf?_some_of_mem t.cols c hc
      obtain ⟨i', hi', _⟩ := idxOf?_some_of_mem t.cols c' hc'
      rw [Table.zip_getCol_eq (t.filterRows p) c c' i i'
          (by rw [Table.filterRows_cols]; exact hi)
          (by rw [Table.filterRows_cols]; exact hi'), List.mem_map] at hx
      obtain ⟨r, hr, rfl⟩ := hx
      rw [Table.zip_getCol_eq t c c' i i' hi hi', List.mem_map]
      exact ⟨r, List.mem_of_mem_filter hr, rfl⟩
    · rw [Table.getCol_eq_nil (t.filterRows p) c'
        (by rw [Table.filterRows_cols]; exact hc'), List.zip_nil_right] at hx
      simp at hx
  · rw [Table.getCol_eq_nil (t.filterRows p) c
      (by rw [Table.filterRows_cols]; exact hc), List.zip_nil_left] at hx
    simp at hx

theorem mem_zip_map_self {α β : Type} (L : List α) (f : α → β) (p : α × β)
    (hp : p ∈ L.zip (L.map f)) : f p.1 = p.2 := by
  have h := List.zip_map' id f L
  rw [List.map_id] at h
  rw [h, List.mem_map] at hp
  obtain ⟨a, _, rfl⟩ := hp
  rfl

theorem coerceTitle_of_isStr (c : Cell) (h : c.isStr = true) : coerceTitle c = c := by
  rcases (Cell.isStr_iff c).mp h with ⟨s, rfl⟩
  rfl

/-- C3 counterexample: `clean_estimated` is not idempotent.  Re-cleaning
a cleaned estimate table wipes `cases_median` to `NA`: the source column
`No. of cases_median` no longer exists on the cleaned output, so the
assignment of lines 42-47 of `estimated_analysis.py` overwrites the
medians with the scalar `pd.NA` on the second run. -/
theorem claim_C3_counterexample :
    clean_estimated ⟨["Country", "Year", "No. of cases_median"],
      [[Cell.str "A", Cell.str "2020", Cell.str "10"]]⟩ =
      .ok ⟨["Country", "Year", "cases_median", "deaths_median"],
        [[Cell.str "A", Cell.num 2020, Cell.num 10, Cell.na]]⟩ ∧
    clean_estimated ⟨["Country", "Year", "cases_median", "deaths_median"],
      [[Cell.str "A", Cell.num 2020, Cell.num 10, Cell.na]]⟩ =
      .ok ⟨["Country", "Year", "cases_median", "deaths_median"],
        [[Cell.str "A", Cell.num 2020, Cell.na, Cell.na]]⟩ ∧
    (Table.mk ["Country", "Year", "cases_median", "deaths_median"]
        [[Cell.str "A", Cell.num 2020, Cell.na, Cell.na]]) ≠
      ⟨["Country", "Year", "cases_median", "deaths_median"],
        [[Cell.str "A", Cell.num 2020, Cell.num 10, Cell.na]]⟩ :=
  ⟨by decide, by decide, by decide⟩

/-- C3 (amended): `clean_data` is idempotent — re-cleaning a cleaned
bibliographic table returns it unchanged — but `clean_estimated` is not:
there is a table whose clean output, cleaned again, loses its
`cases_median` values, because the `No. of cases_median` source column is
gone after the first cleaning. -/
theorem claim_C3_idempotence :
    (∀ t out : Table, t.WF → clean_data t = .ok out → clean_data out = .ok out) ∧
    (∃ t r1 r2 : Table, clean_estimated t = .ok r1 ∧
      clean_estimated r1 = .ok r2 ∧ r2 ≠ r1) := by
  constructor
  · intro t out hWF h
    obtain ⟨it, ia, hit, hia, hout⟩ := clean_data_ok t out h
    have hWF1 : (cdStage1 t).WF := cdStage1_WF t hWF
    have hWF2 : (cdStage2 (cdStage1 t)).WF := cdStage2_WF _ hWF1
    have hWF3 : (cdStage3 (cdStage2 (cdStage1 t))).WF := cdStage3_WF _ hWF2
    have hcolsOut : out.cols = (cdStage3 (cdStage2 (cdStage1 t))).cols := by
      rw [hout]
      exact Table.filterRows_cols _ _
    have hmemOut : ∀ c : String,
        c ∈ out.cols ↔ (c ∈ t.cols ∨ c = "year") ∨ c = "abstract_word_count" := by
      intro c
      rw [hcolsOut, cdStage3_cols, cdStage2_mem, cdStage1_mem]
    have hname : ∀ n : String, n ≠ "year" → n ≠ "abstract_word_count" →
        (n ∈ out.cols ↔ n ∈ t.cols) := by
      intro n h1 h2
      rw [hmemOut n]
      constructor
      · rintro ((h3 | h3) | h3)
        · exact h3
        · exact absurd h3 h1
        · exact absurd h3 h2
      · exact fun h3 => Or.inl (Or.inl h3)
    have hyearO : "year" ∈ out.cols := (hmemOut _).mpr (Or.inl (Or.inr rfl))
    have hawcO : "abstract_word_count" ∈ out.cols := (hmemOut _).mpr (Or.inr rfl)
    have htT3 : "title" ∈ (cdStage3 (cdStage2 (cdStage1 t))).cols :=
      (idxOf?_isSome_iff _ _).mp (by rw [hit]; rfl)
    have htitle : "title" ∈ t.cols := by
      rw [cdStage3_cols] at htT3
      rcases (cdStage2_mem _ _).mp htT3 with h3 | h3
      · rcases (cdStage1_mem _ _).mp h3 with h4 | h4
        · exact h4
        · exact absurd h4 (by decide)
      · exact absurd h3 (by decide)
    have htitleO : "title" ∈ out.cols := (hname "title" (by decide) (by decide)).mpr htitle
    have hsub : ∀ (c : String) (x : Cell), x ∈ out.getCol c →
        x ∈ (cdStage3 (cdStage2 (cdStage1 t))).getCol c := by
      intro c x hx
      rw [hout] at hx
      exact Table.getCol_filterRows_subset _ _ _ _ hx
    have hzsub : ∀ (c c' : String) (p : Cell × Cell),
        p ∈ (out.getCol c).zip (out.getCol c') →
        p ∈ ((cdStage3 (cdStage2 (cdStage1 t))).getCol c).zip
          ((cdStage3 (cdStage2 (cdStage1 t))).getCol c') := by
      intro c c' p hp
      rw [hout] at hp
      exact Table.zip_getCol_filterRows_subset _ _ _ _ _ hp
    have hpush : ∀ c : String, c ≠ "title" → c ≠ "abstract_word_count" →
        (cdStage3 (cdStage2 (cdStage1 t))).getCol c = (cdStage1 t).getCol c := by
      intro c h1 h2
      rw [cdStage3_getCol_other _ _ h1, cdStage2_getCol_other _ _ hWF1 h2]
    have htB : "title" ∈ (cdStage2 (cdStage1 t)).cols :=
      (cdStage2_mem _ _).mpr (Or.inl ((cdStage1_mem _ _).mpr (Or.inl htitle)))
    have hfixTitle : ∀ x ∈ out.getCol "title", coerceTitle x = x := by
      intro x hx
      have hx' := hsub _ _ hx
      have hC3 : cdStage3 (cdStage2 (cdStage1 t)) =
          (cdStage2 (cdStage1 t)).mapCol "title" coerceTitle := by
        unfold cdStage3
        rw [if_pos htB]
      rw [hC3, Table.getCol_mapCol_self _ _ _ hWF2 htB, List.mem_map] at hx'
      obtain ⟨y, _, rfl⟩ := hx'
      rfl
    have hS1 : cdStage1 out = out := by
      unfold cdStage1
      by_cases hpt : "publish_time" ∈ t.cols
      · have hptO : "publish_time" ∈ out.cols :=
          (hname "publish_time" (by decide) (by decide)).mpr hpt
        rw [if_pos hptO]
        have hA : cdStage1 t =
            (t.mapCol "publish_time" pdToDatetime).deriveCol
              "year" "publish_time" dtYear := by
          unfold cdStage1
          rw [if_pos hpt]
        have hWFm : (t.mapCol "publish_time" pdToDatetime).WF :=
          Table.WF_mapCol _ _ _ hWF
        have hcm : "publish_time" ∈ (t.mapCol "publish_time" pdToDatetime).cols := by
          rw [Table.mapCol_cols]
          exact hpt
        have hAc : (cdStage1 t).getCol "publish_time" =
            (t.mapCol "publish_time" pdToDatetime).getCol "publish_time" := by
          rw [hA]
          exact Table.getCol_deriveCol_other _ _ _ _ _ hWFm (by decide)
        have hAy : (cdStage1 t).getCol "year" =
            ((t.mapCol "publish_time" pdToDatetime).getCol "publish_time").map
              dtYear := by
          rw [hA]
          exact Table.getCol_deriveCol_self _ _ _ _ hWFm hcm
        have hmap : out.mapCol "publish_time" pdToDatetime = out := by
          apply Table.mapCol_eq_self
          intro x hx
          have hx' := hsub _ _ hx
          rw [hpush "publish_time" (by decide) (by decide), hAc,
            Table.getCol_mapCol_self _ _ _ hWF hpt, List.mem_map] at hx'
          obtain ⟨y, _, rfl⟩ := hx'
          exact pdToDatetime_idem y
        rw [hmap]
        apply Table.deriveCol_eq_self out _ _ _ hyearO hptO
        intro p hp
        have hp' := hzsub _ _ _ hp
        rw [hpush "publish_time" (by decide) (by decide),
          hpush "year" (by decide) (by decide), hAc, hAy] at hp'
        exact mem_zip_map_self _ _ _ hp'
      · rw [if_neg (fun hmem =>
          hpt ((hname "publish_time" (by decide) (by decide)).mp hmem))]
        by_cases hpd : "publish_date" ∈ t.cols
        · have hpdO : "publish_date" ∈ out.cols :=
            (hname "publish_date" (by decide) (by decide)).mpr hpd
          rw [if_pos hpdO]
          have hA : cdStage1 t =
              (t.mapCol "publish_date" pdToDatetime).deriveCol
                "year" "publish_date" dtYear := by
            unfold cdStage1
            rw [if_neg hpt, if_pos hpd]
          have hWFm : (t.mapCol "publish_date" pdToDatetime).WF :=
            Table.WF_mapCol _ _ _ hWF
          have hcm : "publish_date" ∈ (t.mapCol "publish_date" pdToDatetime).cols := by
            rw [Table.mapCol_cols]
            exact hpd
          have hAc : (cdStage1 t).getCol "publish_date" =
              (t.mapCol "publish_date" pdToDatetime).getCol "publish_date" := by
            rw [hA]
            exact Table.getCol_deriveCol_other _ _ _ _ _ hWFm (by decide)
          have hAy : (cdStage1 t).getCol "year" =
              ((t.mapCol "publish_date" pdToDatetime).getCol "publish_date").map
                dtYear := by
            rw [hA]
            exact Table.getCol_deriveCol_self _ _ _ _ hWFm hcm
          have hmap : out.mapCol "publish_date" pdToDatetime = out := by
            apply Table.mapCol_eq_self
            intro x hx
            have hx' := hsub _ _ hx
            rw [hpush "publish_date" (by decide) (by decide), hAc,
              Table.getCol_mapCol_self _ _ _ hWF hpd, List.mem_map] at hx'
            obtain ⟨y, _, rfl⟩ := hx'
            exact pdToDatetime_idem y
          rw [hmap]
          apply Table.deriveCol_eq_self out _ _ _ hyearO hpdO
          intro p hp
          have hp' := hzsub _ _ _ hp
          rw [hpush "publish_date" (by decide) (by decide),
            hpush "year" (by decide) (by decide), hAc, hAy] at hp'
          exact mem_zip_map_self _ _ _ hp'
        · rw [if_neg (fun hmem =>
            hpd ((hname "publish_date" (by decide) (by decide)).mp hmem))]
          have hA : cdStage1 t = t.setColConst "year" Cell.nan := by
            unfold cdStage1
            rw [if_neg hpt, if_neg hpd]
          have hAy : (cdStage1 t).getCol "year" =
              List.replicate t.rows.length Cell.nan := by
            rw [hA]
            exact Table.getCol_setColConst_self _ _ _ hWF
          apply Table.setColConst_eq_self out _ _ hyearO
          intro x hx
          have hx' := hsub _ _ hx
          rw [hpush "year" (by decide) (by decide), hAy, List.mem_replicate] at hx'
          exact hx'.2
    have hS2 : cdStage2 out = out := by
      unfold cdStage2
      by_cases habs : "abstract" ∈ t.cols
      · have habsO : "abstract" ∈ out.cols :=
          (hname "abstract" (by decide) (by decide)).mpr habs
        rw [if_pos habsO]
        have habsA : "abstract" ∈ (cdStage1 t).cols :=
          (cdStage1_mem _ _).mpr (Or.inl habs)
        have hB : cdStage2 (cdStage1 t) =
            (cdStage1 t).deriveCol "abstract_word_count" "abstract" awcCell := by
          unfold cdStage2
          rw [if_pos habsA]
        have hBabs : (cdStage2 (cdStage1 t)).getCol "abstract" =
            (cdStage1 t).getCol "abstract" := by
          rw [hB]
          exact Table.getCol_deriveCol_other _ _ _ _ _ hWF1 (by decide)
        have hBawc : (cdStage2 (cdStage1 t)).getCol "abstract_word_count" =
            ((cdStage1 t).getCol "abstract").map awcCell := by
          rw [hB]
          exact Table.getCol_deriveCol_self _ _ _ _ hWF1 habsA
        apply Table.deriveCol_eq_self out _ _ _ hawcO habsO
        intro p hp
        have hp' := hzsub _ _ _ hp
        rw [cdStage3_getCol_other (cdStage2 (cdStage1 t)) "abstract" (by decide),
          cdStage3_getCol_other (cdStage2 (cdStage1 t)) "abstract_word_count"
            (by decide), hBabs, hBawc] at hp'
        exact mem_zip_map_self _ _ _ hp'
      · rw [if_neg (fun hmem =>
          habs ((hname "abstract" (by decide) (by decide)).mp hmem))]
        have habsA : "abstract" ∉ (cdStage1 t).cols := by
          intro hmem
          rcases (cdStage1_mem _ _).mp hmem with h3 | h3
          · exact habs h3
          · exact absurd h3 (by decide)
        have hB : cdStage2 (cdStage1 t) =
            (cdStage1 t).setColConst "abstract_word_count" (Cell.num 0) := by
          unfold cdStage2
          rw [if_neg habsA]
        have hBawc : (cdStage2 (cdStage1 t)).getCol "abstract_word_count" =
            List.replicate (cdStage1 t).rows.length (Cell.num 0) := by
          rw [hB]
          exact Table.getCol_setColConst_self _ _ _ hWF1
        apply Table.setColConst_eq_self out _ _ hawcO
        intro x hx
        have hx' := hsub _ _ hx
        rw [cdStage3_getCol_other (cdStage2 (cdStage1 t)) "abstract_word_count"
          (by decide), hBawc, List.mem_replicate] at hx'
        exact hx'.2
    have hS3 : cdStage3 out = out := by
      unfold cdStage3
      rw [if_pos htitleO]
      exact Table.mapCol_eq_self _ _ _ hfixTitle
    show (match idxOf? (cdStage3 (cdStage2 (cdStage1 out))).cols "title",
        idxOf? (cdStage3 (cdStage2 (cdStage1 out))).cols "abstract_word_count" with
      | some it, some ia =>
        Except.ok ((cdStage3 (cdStage2 (cdStage1 out))).filterRows fun r =>
          keepTitleCell (r.getD it Cell.nan) || awcPos (r.getD ia Cell.nan))
      | _, _ => Except.error (DFError.keyError "title")) = Except.ok out
    have hS : cdStage3 (cdStage2 (cdStage1 out)) = out := by
      rw [hS1, hS2, hS3]
    rw [hS]
    have hitO : idxOf? out.cols "title" = some it := by
      rw [hcolsOut]
      exact hit
    have hiaO : idxOf? out.cols "abstract_word_count" = some ia := by
      rw [hcolsOut]
      exact hia
    rw [hitO, hiaO]
    show Except.ok (out.filterRows fun r =>
        keepTitleCell (r.getD it Cell.nan) || awcPos (r.getD ia Cell.nan)) =
      Except.ok out
    rw [Table.filterRows_eq_self]
    intro r hr
    rw [hout] at hr
    have hr' : r ∈ (cdStage3 (cdStage2 (cdStage1 t))).rows.filter (fun r =>
        keepTitleCell (r.getD it Cell.nan) || awcPos (r.getD ia Cell.nan)) := hr
    exact (List.mem_filter.mp hr').2
  · exact ⟨⟨["Country", "Year", "No. of cases_median"],
        [[Cell.str "A", Cell.str "2020", Cell.str "10"]]⟩,
      ⟨["Country", "Year", "cases_median", "deaths_median"],
        [[Cell.str "A", Cell.num 2020, Cell.num 10, Cell.na]]⟩,
      ⟨["Country", "Year", "cases_median", "deaths_median"],
        [[Cell.str "A", Cell.num 2020, Cell.na, Cell.na]]⟩,
      by decide, by decide, by decide⟩

theorem claim_C3_witness :
    Table.WF ⟨["title"], [[Cell.str "x"]]⟩ ∧
    clean_data ⟨["title"], [[Cell.str "x"]]⟩ =
      .ok ⟨["title", "year", "abstract_word_count"],
        [[Cell.str "x", Cell.nan, Cell.num 0]]⟩ ∧
    clean_data ⟨["title", "year", "abstract_word_count"],
        [[Cell.str "x", Cell.nan, Cell.num 0]]⟩ =
      .ok ⟨["title", "year", "abstract_word_count"],
        [[Cell.str "x", Cell.nan, Cell.num 0]]⟩ :=
  ⟨by decide, by decide,
   claim_C3_idempotence.1 ⟨["title"], [[Cell.str "x"]]⟩
     ⟨["title", "year", "abstract_word_count"],
       [[Cell.str "x", Cell.nan, Cell.num 0]]⟩
     (by decide) (by decide)⟩

end FA
